import Mathlib

/-!
Verification of the request/response translation pipeline of the
claude-code-ollama-proxy gateway.

The Python sources under `app/` are shallowly embedded here:

* Python/JSON values (`dict`, `list`, `str`, `int`, `bool`, `None`) are
  modelled by the inductive type `JVal`; Python dicts become ordered
  association lists (insertion order preserved, assignment updates in
  place or appends, exactly like CPython dicts).
* Python strings are modelled as `List Char` (`Str`).  `str.strip`,
  `str.lower`, `str.startswith` are modelled for the ASCII range, which
  is the range the gateway's protocol literals live in.
* `json.dumps(..., sort_keys=True, separators=(",", ":"))` and
  `json.dumps(..., separators=(",", ":"), ensure_ascii=False)` are
  modelled by `jDumpCanonical` and `jDumpCompact`.
* `json.loads` is modelled by `jsonLoads`, a strict recursive-descent
  parser for the JSON fragment without floating-point literals
  (`JVal` has exact integers only; no claim exercises float parsing).
* `hashlib.sha256(...).hexdigest()` is modelled by `sha256Hex`, a full
  executable SHA-256 over the UTF-8 bytes of the input.

Each embedded function keeps the name of the Python function it is
translated from where Lean's grammar allows it.
-/

/-- Python strings are modelled as lists of characters. -/
abbrev Str := List Char

/-- JSON-like Python values: `None`, `bool`, `int`, `str`, `list`, `dict`.
Floats are outside the model (no claim involves them). -/
inductive JVal where
  | null : JVal
  | bool : Bool → JVal
  | num : Int → JVal
  | str : Str → JVal
  | arr : List JVal → JVal
  | obj : List (Str × JVal) → JVal

mutual

def JVal.decEq : (a b : JVal) → Decidable (a = b)
  | .null, .null => isTrue rfl
  | .null, .bool _ => isFalse (fun h => JVal.noConfusion h)
  | .null, .num _ => isFalse (fun h => JVal.noConfusion h)
  | .null, .str _ => isFalse (fun h => JVal.noConfusion h)
  | .null, .arr _ => isFalse (fun h => JVal.noConfusion h)
  | .null, .obj _ => isFalse (fun h => JVal.noConfusion h)
  | .bool _, .null => isFalse (fun h => JVal.noConfusion h)
  | .bool a, .bool b =>
    if h : a = b then isTrue (congrArg JVal.bool h)
    else isFalse (fun hh => h (JVal.bool.inj hh))
  | .bool _, .num _ => isFalse (fun h => JVal.noConfusion h)
  | .bool _, .str _ => isFalse (fun h => JVal.noConfusion h)
  | .bool _, .arr _ => isFalse (fun h => JVal.noConfusion h)
  | .bool _, .obj _ => isFalse (fun h => JVal.noConfusion h)
  | .num _, .null => isFalse (fun h => JVal.noConfusion h)
  | .num _, .bool _ => isFalse (fun h => JVal.noConfusion h)
  | .num a, .num b =>
    if h : a = b then isTrue (congrArg JVal.num h)
    else isFalse (fun hh => h (JVal.num.inj hh))
  | .num _, .str _ => isFalse (fun h => JVal.noConfusion h)
  | .num _, .arr _ => isFalse (fun h => JVal.noConfusion h)
  | .num _, .obj _ => isFalse (fun h => JVal.noConfusion h)
  | .str _, .null => isFalse (fun h => JVal.noConfusion h)
  | .str _, .bool _ => isFalse (fun h => JVal.noConfusion h)
  | .str _, .num _ => isFalse (fun h => JVal.noConfusion h)
  | .str a, .str b =>
    if h : a = b then isTrue (congrArg JVal.str h)
    else isFalse (fun hh => h (JVal.str.inj hh))
  | .str _, .arr _ => isFalse (fun h => JVal.noConfusion h)
  | .str _, .obj _ => isFalse (fun h => JVal.noConfusion h)
  | .arr _, .null => isFalse (fun h => JVal.noConfusion h)
  | .arr _, .bool _ => isFalse (fun h => JVal.noConfusion h)
  | .arr _, .num _ => isFalse (fun h => JVal.noConfusion h)
  | .arr _, .str _ => isFalse (fun h => JVal.noConfusion h)
  | .arr a, .arr b =>
    match JVal.decEqList a b with
    | isTrue h => isTrue (congrArg JVal.arr h)
    | isFalse h => isFalse (fun hh => h (JVal.arr.inj hh))
  | .arr _, .obj _ => isFalse (fun h => JVal.noConfusion h)
  | .obj _, .null => isFalse (fun h => JVal.noConfusion h)
  | .obj _, .bool _ => isFalse (fun h => JVal.noConfusion h)
  | .obj _, .num _ => isFalse (fun h => JVal.noConfusion h)
  | .obj _, .str _ => isFalse (fun h => JVal.noConfusion h)
  | .obj _, .arr _ => isFalse (fun h => JVal.noConfusion h)
  | .obj a, .obj b =>
    match JVal.decEqObj a b with
    | isTrue h => isTrue (congrArg JVal.obj h)
    | isFalse h => isFalse (fun hh => h (JVal.obj.inj hh))

def JVal.decEqList : (a b : List JVal) → Decidable (a = b)
  | [], [] => isTrue rfl
  | [], _ :: _ => isFalse (fun h => List.noConfusion h)
  | _ :: _, [] => isFalse (fun h => List.noConfusion h)
  | x :: xs, y :: ys =>
    match JVal.decEq x y with
    | isFalse h1 => isFalse (fun h => h1 (List.cons.inj h).1)
    | isTrue h1 =>
      match JVal.decEqList xs ys with
      | isTrue h2 => isTrue (h1 ▸ h2 ▸ rfl)
      | isFalse h2 => isFalse (fun h => h2 (List.cons.inj h).2)

def JVal.decEqObj : (a b : List (Str × JVal)) → Decidable (a = b)
  | [], [] => isTrue rfl
  | [], _ :: _ => isFalse (fun h => List.noConfusion h)
  | _ :: _, [] => isFalse (fun h => List.noConfusion h)
  | (k, v) :: xs, (k', v') :: ys =>
    if hk : k = k' then
      match JVal.decEq v v' with
      | isFalse h1 => isFalse (fun h => h1 (congrArg Prod.snd (List.cons.inj h).1))
      | isTrue h1 =>
        match JVal.decEqObj xs ys with
        | isTrue h2 => isTrue (by rw [hk, h1, h2])
        | isFalse h2 => isFalse (fun h => h2 (List.cons.inj h).2)
    else isFalse (fun h => hk (congrArg Prod.fst (List.cons.inj h).1))

end

instance : DecidableEq JVal := JVal.decEq

instance : Inhabited JVal := ⟨.null⟩

/-! ### Python dict operations (ordered association lists) -/

/-- Python `d.get(k)`: the value at the first matching key, if any. -/
def dGet (d : List (Str × JVal)) (k : Str) : Option JVal :=
  (d.find? (fun p => p.1 = k)).map Prod.snd

/-- Python `k in d`. -/
def dHasKey (d : List (Str × JVal)) (k : Str) : Bool :=
  d.any (fun p => p.1 = k)

/-- Python `d[k] = v`: update the existing entry in place (keeping its
position, as CPython dicts do) or append a new entry at the end. -/
def dSet (d : List (Str × JVal)) (k : Str) (v : JVal) : List (Str × JVal) :=
  if d.any (fun p => p.1 = k) then
    d.map (fun p => if p.1 = k then (k, v) else p)
  else d ++ [(k, v)]

/-- Python `d.pop(k, None)`: remove every entry with the given key. -/
def dPop (d : List (Str × JVal)) (k : Str) : List (Str × JVal) :=
  d.filter (fun p => ¬ p.1 = k)

/-! ### Python value coercions -/

/-- Python truthiness of a JSON-like value. -/
def truthy : JVal → Bool
  | .null => false
  | .bool b => b
  | .num n => n ≠ 0
  | .str s => ¬ s.isEmpty
  | .arr l => ¬ l.isEmpty
  | .obj l => ¬ l.isEmpty

/-- Recursion worker for `natDigits`; the fuel bounds the number of
divisions and any fuel above the digit count gives the same value. -/
def natDigitsGo : Nat → Nat → Str
  | 0, _ => []
  | fuel + 1, n =>
    if n < 10 then [Char.ofNat (48 + n)]
    else natDigitsGo fuel (n / 10) ++ [Char.ofNat (48 + n % 10)]

/-- Decimal digit characters of a natural number, most significant first
(the digits of Python `str(n)` for `n ≥ 0`). -/
def natDigits (n : Nat) : Str :=
  natDigitsGo (n + 1) n

/-- Python `str(n)` for an `int`. -/
def intStr (n : Int) : Str :=
  if n < 0 then '-' :: natDigits n.natAbs else natDigits n.natAbs

mutual

/-- Python `repr` of a JSON-like value.  Exact for `None`, booleans,
integers; strings are rendered between single quotes without escape
processing (no claim exercises `repr` of a string containing quotes). -/
def pyRepr : JVal → Str
  | .null => "None".data
  | .bool true => "True".data
  | .bool false => "False".data
  | .num n => intStr n
  | .str s => '\'' :: s ++ ['\'']
  | .arr l => '[' :: pyReprList l ++ [']']
  | .obj l => '\x7b' :: pyReprObj l ++ ['\x7d']

def pyReprList : List JVal → Str
  | [] => []
  | [x] => pyRepr x
  | x :: y :: rest => pyRepr x ++ ", ".data ++ pyReprList (y :: rest)

def pyReprObj : List (Str × JVal) → Str
  | [] => []
  | [(k, v)] => '\'' :: k ++ "': ".data ++ pyRepr v
  | (k, v) :: p :: rest => '\'' :: k ++ "': ".data ++ pyRepr v ++ ", ".data ++ pyReprObj (p :: rest)

end

/-- Python `str(v)`: identity on strings, `repr`-like otherwise. -/
def pyStr : JVal → Str
  | .str s => s
  | v => pyRepr v

/-- Whitespace characters stripped by Python `str.strip()` (ASCII range). -/
def isPySpace (c : Char) : Bool :=
  c = ' ' ∨ c = '\t' ∨ c = '\n' ∨ c = '\r' ∨ c = '\x0b' ∨ c = '\x0c'

/-- Python `str.strip()`. -/
def pyStrip (s : Str) : Str :=
  ((s.dropWhile isPySpace).reverse.dropWhile isPySpace).reverse

/-- Python `str.lower()` (ASCII range). -/
def pyLower (s : Str) : Str :=
  s.map Char.toLower

/-- Python `str.startswith(p)`. -/
def pyStartsWith (s p : Str) : Bool :=
  s.take p.length = p

/-! ### JSON serialization (`json.dumps`) -/

/-- Hexadecimal digit character (lowercase). -/
def hexChar (n : Nat) : Char :=
  "0123456789abcdef".data.getD n '0'

/-- Four lowercase hex digits of a code unit below 2^16. -/
def hex4 (n : Nat) : Str :=
  [hexChar (n / 4096 % 16), hexChar (n / 256 % 16), hexChar (n / 16 % 16), hexChar (n % 16)]

/-- JSON string escaping of one character, following CPython's encoder:
quote, backslash and the control shortcuts use two-character escapes,
other characters below `0x20` use `\uXXXX`; with `ensureAscii` every
character outside `0x20..0x7E` is `\uXXXX`-escaped (surrogate pairs
above `0xFFFF`). -/
def jEscapeChar (ensureAscii : Bool) (c : Char) : Str :=
  if c = '"' then ['\\', '"']
  else if c = '\\' then ['\\', '\\']
  else if c = '\n' then ['\\', 'n']
  else if c = '\t' then ['\\', 't']
  else if c = '\r' then ['\\', 'r']
  else if c = '\x08' then ['\\', 'b']
  else if c = '\x0c' then ['\\', 'f']
  else if c.toNat < 0x20 then '\\' :: 'u' :: hex4 c.toNat
  else if ensureAscii ∧ 0x7E < c.toNat then
    if c.toNat ≤ 0xFFFF then '\\' :: 'u' :: hex4 c.toNat
    else
      let v := c.toNat - 0x10000
      '\\' :: 'u' :: hex4 (0xD800 + v / 0x400) ++ '\\' :: 'u' :: hex4 (0xDC00 + v % 0x400)
  else [c]

/-- JSON escaping of a whole string, with surrounding quotes. -/
def jString (ensureAscii : Bool) (s : Str) : Str :=
  '"' :: (s.map (jEscapeChar ensureAscii)).flatten ++ ['"']

/-- Code-point lexicographic order on strings (Python `<` on `str`). -/
def strLt (a b : Str) : Bool :=
  match a, b with
  | [], [] => false
  | [], _ :: _ => true
  | _ :: _, [] => false
  | x :: xs, y :: ys => if x = y then strLt xs ys else decide (x.toNat < y.toNat)

/-- Stable insertion of an entry into a key-sorted association list. -/
def insortEntry (p : Str × JVal) : List (Str × JVal) → List (Str × JVal)
  | [] => [p]
  | q :: rest => if strLt q.1 p.1 then q :: insortEntry p rest else p :: q :: rest

/-- Stable insertion sort of object entries by key (Python `sorted`). -/
def sortEntries : List (Str × JVal) → List (Str × JVal)
  | [] => []
  | p :: rest => insortEntry p (sortEntries rest)

mutual

/-- Recursively sort every object's entries by key: the value whose plain
dump equals `json.dumps(v, sort_keys=True)` of the original. -/
def sortJVal : JVal → JVal
  | .null => .null
  | .bool b => .bool b
  | .num n => .num n
  | .str s => .str s
  | .arr l => .arr (sortJValList l)
  | .obj l => .obj (sortEntries (sortJValObj l))

def sortJValList : List JVal → List JVal
  | [] => []
  | x :: xs => sortJVal x :: sortJValList xs

def sortJValObj : List (Str × JVal) → List (Str × JVal)
  | [] => []
  | (k, v) :: xs => (k, sortJVal v) :: sortJValObj xs

end

mutual

/-- Compact JSON dump with separators `","` and `":"` (no key sorting). -/
def jDump (ensureAscii : Bool) : JVal → Str
  | .null => "null".data
  | .bool true => "true".data
  | .bool false => "false".data
  | .num n => intStr n
  | .str s => jString ensureAscii s
  | .arr l => '[' :: jDumpList ensureAscii l ++ [']']
  | .obj l => '\x7b' :: jDumpObj ensureAscii l ++ ['\x7d']

def jDumpList (ensureAscii : Bool) : List JVal → Str
  | [] => []
  | [x] => jDump ensureAscii x
  | x :: y :: rest => jDump ensureAscii x ++ ',' :: jDumpList ensureAscii (y :: rest)

def jDumpObj (ensureAscii : Bool) : List (Str × JVal) → Str
  | [] => []
  | [(k, v)] => jString ensureAscii k ++ ':' :: jDump ensureAscii v
  | (k, v) :: p :: rest =>
    jString ensureAscii k ++ ':' :: jDump ensureAscii v ++ ',' :: jDumpObj ensureAscii (p :: rest)

end

/-- Python `json.dumps(v, sort_keys=True, separators=(",", ":"))`. -/
def jDumpCanonical (v : JVal) : Str :=
  jDump true (sortJVal v)

/-- Python `json.dumps(v, separators=(",", ":"), ensure_ascii=False)`. -/
def jDumpCompact (v : JVal) : Str :=
  jDump false v

/-! ### JSON parsing (`json.loads`)

A strict recursive-descent parser for the JSON fragment without
floating-point literals: a number token containing a fraction or an
exponent makes the parse fail, because `JVal` carries exact integers
only.  No claim feeds a float literal to `json.loads`. -/

/-- JSON whitespace accepted between tokens. -/
def isJsonWs (c : Char) : Bool :=
  c = ' ' ∨ c = '\t' ∨ c = '\n' ∨ c = '\r'

/-- Skip JSON whitespace. -/
def skipWs (s : Str) : Str :=
  s.dropWhile isJsonWs

/-- Value of one hexadecimal digit character, if any. -/
def hexVal (c : Char) : Option Nat :=
  if '0' ≤ c ∧ c ≤ '9' then some (c.toNat - 48)
  else if 'a' ≤ c ∧ c ≤ 'f' then some (c.toNat - 87)
  else if 'A' ≤ c ∧ c ≤ 'F' then some (c.toNat - 55)
  else none

/-- Parse exactly four hex digits. -/
def parseHex4 : Str → Option (Nat × Str)
  | a :: b :: c :: d :: rest => do
    let va ← hexVal a
    let vb ← hexVal b
    let vc ← hexVal c
    let vd ← hexVal d
    pure (va * 4096 + vb * 256 + vc * 16 + vd, rest)
  | _ => none

/-- Parse the remainder of a JSON string literal (after the opening
quote), producing the decoded characters.  Surrogate pairs in `\u`
escapes are combined; a lone surrogate becomes `U+FFFD` (Lean `Char`
cannot carry a surrogate; no claim exercises this corner). -/
def parseJString (fuel : Nat) (s : Str) : Option (Str × Str) :=
  match fuel with
  | 0 => none
  | fuel + 1 =>
    match s with
    | [] => none
    | '"' :: rest => some ([], rest)
    | '\\' :: esc :: rest =>
      let simple : Char → Option Char := fun c =>
        if c = '"' then some '"'
        else if c = '\\' then some '\\'
        else if c = '/' then some '/'
        else if c = 'b' then some '\x08'
        else if c = 'f' then some '\x0c'
        else if c = 'n' then some '\n'
        else if c = 'r' then some '\r'
        else if c = 't' then some '\t'
        else none
      match simple esc with
      | some c => do
        let (tail, rem) ← parseJString fuel rest
        pure (c :: tail, rem)
      | none =>
        if esc = 'u' then do
          let (v, rest') ← parseHex4 rest
          if 0xD800 ≤ v ∧ v ≤ 0xDBFF then
            match rest' with
            | '\\' :: 'u' :: rest'' => do
              let (w, rest''') ← parseHex4 rest''
              if 0xDC00 ≤ w ∧ w ≤ 0xDFFF then do
                let (tail, rem) ← parseJString fuel rest'''
                pure (Char.ofNat (0x10000 + (v - 0xD800) * 0x400 + (w - 0xDC00)) :: tail, rem)
              else do
                let (tail, rem) ← parseJString fuel ('\\' :: 'u' :: rest'')
                pure (Char.ofNat 0xFFFD :: tail, rem)
            | _ => do
              let (tail, rem) ← parseJString fuel rest'
              pure (Char.ofNat 0xFFFD :: tail, rem)
          else if 0xDC00 ≤ v ∧ v ≤ 0xDFFF then do
            let (tail, rem) ← parseJString fuel rest'
            pure (Char.ofNat 0xFFFD :: tail, rem)
          else do
            let (tail, rem) ← parseJString fuel rest'
            pure (Char.ofNat v :: tail, rem)
        else none
    | c :: rest =>
      if c.toNat < 0x20 then none
      else do
        let (tail, rem) ← parseJString fuel rest
        pure (c :: tail, rem)

/-- Parse the digits of a JSON integer token (no leading-zero run). -/
def parseDigits (s : Str) : Option (Nat × Str) :=
  let digs := s.takeWhile (fun c => '0' ≤ c ∧ c ≤ '9')
  let rest := s.dropWhile (fun c => '0' ≤ c ∧ c ≤ '9')
  if digs.isEmpty then none
  else if 1 < digs.length ∧ digs.headD '0' = '0' then none
  else some (digs.foldl (fun a c => a * 10 + (c.toNat - 48)) 0, rest)

mutual

/-- Parse one JSON value. -/
def parseValue (fuel : Nat) (s : Str) : Option (JVal × Str) :=
  match fuel with
  | 0 => none
  | fuel + 1 =>
    let s := skipWs s
    match s with
    | [] => none
    | c :: rest =>
      if c = '"' then do
        let (chars, rem) ← parseJString (rest.length + 1) rest
        pure (.str chars, rem)
      else if c = '\x7b' then
        let s' := skipWs rest
        match s' with
        | '\x7d' :: rem => some (.obj [], rem)
        | _ => do
          let (fields, rem) ← parseMembers fuel s'
          pure (.obj fields, rem)
      else if c = '[' then
        let s' := skipWs rest
        match s' with
        | ']' :: rem => some (.arr [], rem)
        | _ => do
          let (elems, rem) ← parseElements fuel s'
          pure (.arr elems, rem)
      else if c = 't' then
        if pyStartsWith rest "rue".data then some (.bool true, rest.drop 3) else none
      else if c = 'f' then
        if pyStartsWith rest "alse".data then some (.bool false, rest.drop 4) else none
      else if c = 'n' then
        if pyStartsWith rest "ull".data then some (.null, rest.drop 3) else none
      else if c = '-' then do
        let (n, rem) ← parseDigits rest
        match rem with
        | d :: _ =>
          if d = '.' ∨ d = 'e' ∨ d = 'E' then none else pure (.num (-(n : Int)), rem)
        | [] => pure (.num (-(n : Int)), rem)
      else if '0' ≤ c ∧ c ≤ '9' then do
        let (n, rem) ← parseDigits s
        match rem with
        | d :: _ =>
          if d = '.' ∨ d = 'e' ∨ d = 'E' then none else pure (.num (n : Int), rem)
        | [] => pure (.num (n : Int), rem)
      else none

/-- Parse `"key": value` pairs separated by commas, up to the closing
brace. -/
def parseMembers (fuel : Nat) (s : Str) : Option (List (Str × JVal) × Str) :=
  match fuel with
  | 0 => none
  | fuel + 1 =>
    match skipWs s with
    | '"' :: rest => do
      let (key, rem) ← parseJString (rest.length + 1) rest
      match skipWs rem with
      | ':' :: rem' => do
        let (v, rem'') ← parseValue fuel rem'
        match skipWs rem'' with
        | ',' :: rem''' => do
          let (fields, rem4) ← parseMembers fuel rem'''
          pure ((key, v) :: fields, rem4)
        | '\x7d' :: rem''' => pure ([(key, v)], rem''')
        | _ => none
      | _ => none
    | _ => none

/-- Parse array elements separated by commas, up to the closing bracket. -/
def parseElements (fuel : Nat) (s : Str) : Option (List JVal × Str) :=
  match fuel with
  | 0 => none
  | fuel + 1 => do
    let (v, rem) ← parseValue fuel s
    match skipWs rem with
    | ',' :: rem' => do
      let (elems, rem'') ← parseElements fuel rem'
      pure (v :: elems, rem'')
    | ']' :: rem' => pure ([v], rem')
    | _ => none

end

/-- Python `json.loads`: parse one document, allowing surrounding
whitespace only. -/
def jsonLoads (s : Str) : Option JVal :=
  match parseValue (s.length + 1) s with
  | some (v, rest) => if (skipWs rest).isEmpty then some v else none
  | none => none

/-! ### UTF-8 encoding and SHA-256 (`str.encode`, `hashlib.sha256`) -/

/-- UTF-8 bytes of one character. -/
def utf8Char (c : Char) : List Nat :=
  let n := c.toNat
  if n < 0x80 then [n]
  else if n < 0x800 then [0xC0 + n / 64, 0x80 + n % 64]
  else if n < 0x10000 then [0xE0 + n / 4096, 0x80 + n / 64 % 64, 0x80 + n % 64]
  else [0xF0 + n / 262144, 0x80 + n / 4096 % 64, 0x80 + n / 64 % 64, 0x80 + n % 64]

/-- Python `s.encode()`: UTF-8 bytes of a string. -/
def utf8 (s : Str) : List Nat :=
  (s.map utf8Char).flatten

/-- Big-endian bytes of a number, fixed width. -/
def bytesBE (width n : Nat) : List Nat :=
  match width with
  | 0 => []
  | w + 1 => bytesBE w (n / 256) ++ [n % 256]

/-- SHA-256 round constants. -/
def shaK : List Nat :=
  [1116352408, 1899447441, 3049323471, 3921009573, 961987163, 1508970993, 2453635748, 2870763221,
   3624381080, 310598401, 607225278, 1426881987, 1925078388, 2162078206, 2614888103, 3248222580,
   3835390401, 4022224774, 264347078, 604807628, 770255983, 1249150122, 1555081692, 1996064986,
   2554220882, 2821834349, 2952996808, 3210313671, 3336571891, 3584528711, 113926993, 338241895,
   666307205, 773529912, 1294757372, 1396182291, 1695183700, 1986661051, 2177026350, 2456956037,
   2730485921, 2820302411, 3259730800, 3345764771, 3516065817, 3600352804, 4094571909, 275423344,
   430227734, 506948616, 659060556, 883997877, 958139571, 1322822218, 1537002063, 1747873779,
   1955562222, 2024104815, 2227730452, 2361852424, 2428436474, 2756734187, 3204031479, 3329325298]

/-- SHA-256 initial hash values. -/
def shaH0 : List Nat :=
  [1779033703, 3144134277, 1013904242, 2773480762, 1359893119, 2600822924, 528734635, 1541459225]

/-- Right rotation of a 32-bit word. -/
def rotr (k n : Nat) : Nat :=
  (n >>> k ||| n <<< (32 - k)) % 4294967296

/-- Message padding: `0x80`, zeros, 8-byte big-endian bit length. -/
def shaPad (msg : List Nat) : List Nat :=
  let padZeros := (119 - msg.length % 64) % 64
  msg ++ 0x80 :: List.replicate padZeros 0 ++ bytesBE 8 (msg.length * 8)

/-- Group bytes into 32-bit big-endian words. -/
def toWords : List Nat → List Nat
  | a :: b :: c :: d :: rest => (a * 16777216 + b * 65536 + c * 256 + d) :: toWords rest
  | _ => []

/-- Extend a 16-word schedule by `fuel` further words. -/
def extendSchedule (w : List Nat) : Nat → List Nat
  | 0 => w
  | f + 1 =>
    let n := w.length
    let s0v := w.getD (n - 15) 0
    let s1v := w.getD (n - 2) 0
    let s0 := (rotr 7 s0v ^^^ rotr 18 s0v ^^^ s0v >>> 3) % 4294967296
    let s1 := (rotr 17 s1v ^^^ rotr 19 s1v ^^^ s1v >>> 10) % 4294967296
    extendSchedule (w ++ [(w.getD (n - 16) 0 + s0 + w.getD (n - 7) 0 + s1) % 4294967296]) f

/-- One SHA-256 compression round. -/
def shaRound (st : Nat × Nat × Nat × Nat × Nat × Nat × Nat × Nat) (kw : Nat × Nat) :
    Nat × Nat × Nat × Nat × Nat × Nat × Nat × Nat :=
  let a := st.1
  let b := st.2.1
  let c := st.2.2.1
  let d := st.2.2.2.1
  let e := st.2.2.2.2.1
  let f := st.2.2.2.2.2.1
  let g := st.2.2.2.2.2.2.1
  let h := st.2.2.2.2.2.2.2
  let s1 := rotr 6 e ^^^ rotr 11 e ^^^ rotr 25 e
  let ch := e &&& f ^^^ (e ^^^ 4294967295) &&& g
  let temp1 := (h + s1 + ch + kw.1 + kw.2) % 4294967296
  let s0 := rotr 2 a ^^^ rotr 13 a ^^^ rotr 22 a
  let maj := a &&& b ^^^ a &&& c ^^^ b &&& c
  let temp2 := (s0 + maj) % 4294967296
  ((temp1 + temp2) % 4294967296, a, b, c, (d + temp1) % 4294967296, e, f, g)

/-- Compress one 64-byte block into the running hash state. -/
def shaCompress (hs : List Nat) (block : List Nat) : List Nat :=
  let w := extendSchedule (toWords block) 48
  let a0 := hs.getD 0 0
  let b0 := hs.getD 1 0
  let c0 := hs.getD 2 0
  let d0 := hs.getD 3 0
  let e0 := hs.getD 4 0
  let f0 := hs.getD 5 0
  let g0 := hs.getD 6 0
  let h0 := hs.getD 7 0
  let st := (shaK.zip w).foldl shaRound (a0, b0, c0, d0, e0, f0, g0, h0)
  [(a0 + st.1) % 4294967296, (b0 + st.2.1) % 4294967296, (c0 + st.2.2.1) % 4294967296,
   (d0 + st.2.2.2.1) % 4294967296, (e0 + st.2.2.2.2.1) % 4294967296,
   (f0 + st.2.2.2.2.2.1) % 4294967296, (g0 + st.2.2.2.2.2.2.1) % 4294967296,
   (h0 + st.2.2.2.2.2.2.2) % 4294967296]

/-- Recursion worker folding the compression function over consecutive
64-byte blocks; the fuel bounds the number of blocks (any fuel at least
the byte count gives the same value). -/
def shaBlocksGo : Nat → List Nat → List Nat → List Nat
  | _, hs, [] => hs
  | 0, hs, _ => hs
  | fuel + 1, hs, b :: rest =>
    shaBlocksGo fuel (shaCompress hs ((b :: rest).take 64)) (rest.drop 63)

/-- Fold the compression function over consecutive 64-byte blocks. -/
def shaBlocks (hs bytes : List Nat) : List Nat :=
  shaBlocksGo bytes.length hs bytes

/-- SHA-256 digest bytes of a byte message. -/
def sha256Bytes (msg : List Nat) : List Nat :=
  ((shaBlocks shaH0 (shaPad msg)).map (bytesBE 4)).flatten

/-- Two lowercase hex digits of one byte. -/
def byteHex (b : Nat) : Str :=
  [hexChar (b / 16 % 16), hexChar (b % 16)]

/-- Python `hashlib.sha256(msg).hexdigest()` over bytes. -/
def sha256Hex (msg : List Nat) : Str :=
  ((sha256Bytes msg).map byteHex).flatten

/-! ### Tool use repair (`app/tool_repair.py`) -/

/-- The `stats` counters of `repair_tool_use_blocks` (tool_repair.py:24-28). -/
structure RepairStats where
  parsed_stringified_input : Nat
  added_ids : Nat
  dropped_invalid_tools : Nat
deriving DecidableEq, Repr

/-- Pointwise sum of stat counters (the loop increments them in place). -/
def addStats (a b : RepairStats) : RepairStats :=
  ⟨a.parsed_stringified_input + b.parsed_stringified_input,
   a.added_ids + b.added_ids,
   a.dropped_invalid_tools + b.dropped_invalid_tools⟩

/-- Python `str(d.get(k) or "")`: string coercion of a dict entry with
falsy values (including a missing key) collapsing to the empty string. -/
def getStrCoerced (d : List (Str × JVal)) (k : Str) : Str :=
  match dGet d k with
  | some v => if truthy v then pyStr v else []
  | none => []

/-- The digest pre-image of `_generate_tool_use_id` (tool_repair.py:14):
the f-string joining name, canonical JSON of the input and the position
with colons. -/
def hashSource (name : Str) (input_params : JVal) (position : Nat) : Str :=
  name ++ ':' :: jDumpCanonical input_params ++ ':' :: natDigits position

/-- Embedding of `_generate_tool_use_id` (tool_repair.py:9-16).  The
`json.dumps` fallback `str(input_params)` for unserializable values is
dead in this model: every `JVal` serializes. -/
def generate_tool_use_id (name : Str) (input_params : JVal) (position : Nat) : Str :=
  "toolu_".data ++ (sha256Hex (utf8 (hashSource name input_params position))).take 16

/-- The `tool_name_set` built from `request_tools`
(tool_repair.py:30-38): lower-cased stripped names of dict-shaped tools,
skipping empties.  The Python `set` is modelled as the list of its
insertions; only membership is ever consulted. -/
def toolNameSet (request_tools : List JVal) : List Str :=
  request_tools.filterMap (fun tool =>
    match tool with
    | .obj kvs =>
      let name := pyLower (pyStrip (getStrCoerced kvs "name".data))
      if name.isEmpty then none else some name
    | _ => none)

/-- The replacement `text` block for a dropped `tool_use` block
(tool_repair.py:67-69). -/
def unavailableBlock (tool_name : Str) : JVal :=
  .obj [("type".data, .str "text".data),
        ("text".data, .str ("[Tool ".data ++ '\'' ::
          (if tool_name.isEmpty then "unknown".data else tool_name) ++
          '\'' :: " not available]".data))]

/-- The input-parsing and id-synthesis steps of the repair loop body
(tool_repair.py:49-62) on the entries of a `tool_use` dict: the updated
entries plus the `parsed_stringified_input` and `added_ids` increments. -/
def repairToolUseKvs (tool_name : Str) (idx : Nat) (kvs : List (Str × JVal)) :
    List (Str × JVal) × Nat × Nat :=
  let pr :=
    match dGet kvs "input".data with
    | some (.str s) =>
      match jsonLoads s with
      | some parsedInput => (dSet kvs "input".data parsedInput, 1)
      | none => (kvs, 0)
    | _ => (kvs, 0)
  let idPresent :=
    match dGet pr.1 "id".data with
    | some v => truthy v
    | none => false
  if idPresent then (pr.1, pr.2, 0)
  else
    (dSet pr.1 "id".data
      (.str (generate_tool_use_id tool_name ((dGet pr.1 "input".data).getD .null) idx)),
     pr.2, 1)

/-- One iteration of the repair loop (tool_repair.py:41-72) for the block
at index `idx`: returns the emitted block and this block's stat
increments (the caller accumulates them, as the Python loop mutates
`stats` in place). -/
def repairBlock (tool_name_set : Option (List Str)) (idx : Nat) (block : JVal) :
    JVal × RepairStats :=
  match block with
  | .obj kvs =>
    if dGet kvs "type".data = some (.str "tool_use".data) then
      let tool_name := pyStrip (getStrCoerced kvs "name".data)
      let rep := repairToolUseKvs tool_name idx kvs
      match tool_name_set with
      | some ns =>
        if tool_name.isEmpty ∨ pyLower tool_name ∉ ns then
          (unavailableBlock tool_name, ⟨rep.2.1, rep.2.2, 1⟩)
        else (.obj rep.1, ⟨rep.2.1, rep.2.2, 0⟩)
      | none => (.obj rep.1, ⟨rep.2.1, rep.2.2, 0⟩)
    else (block, ⟨0, 0, 0⟩)
  | _ => (block, ⟨0, 0, 0⟩)

/-- The `for idx, block in enumerate(content)` loop of
`repair_tool_use_blocks` (tool_repair.py:41-72), threading the index. -/
def repairLoop (tool_name_set : Option (List Str)) : Nat → List JVal → List JVal × RepairStats
  | _, [] => ([], ⟨0, 0, 0⟩)
  | idx, b :: rest =>
    ((repairBlock tool_name_set idx b).1 :: (repairLoop tool_name_set (idx + 1) rest).1,
     addStats (repairBlock tool_name_set idx b).2 (repairLoop tool_name_set (idx + 1) rest).2)

/-- Embedding of `repair_tool_use_blocks` (tool_repair.py:19-74). -/
def repair_tool_use_blocks (content : List JVal) (request_tools : Option (List JVal)) :
    List JVal × RepairStats :=
  repairLoop (request_tools.map toolNameSet) 0 content

/-! ### Routing (`app/routing.py`) -/

/-- The immutable routing snapshot (routing.py:10-21).  The
`ollama_timeout_seconds` float and the `user_config_path` string are
outside the model: no claim touches them and the former is a float. -/
structure RoutingConfig where
  alias_to_model : List (Str × Str)
  default_alias : Option JVal
  promises : List (Str × JVal)
  debug_logging : List (Str × Bool)
  thinking_capable_models : List Str
  tool_calling_capable_models : List Str
  verbose_tool_logging : Bool
  tool_call_streaming_enabled : Bool

/-- Lookup in a string-valued association map (Python `dict.get`). -/
def sGet (d : List (Str × Str)) (k : Str) : Option Str :=
  (d.find? (fun p => p.1 = k)).map Prod.snd

/-- Coercion of an optional YAML value to a dict: `data.get(key, {}) or
{}` followed by iteration.  A falsy value collapses to the empty dict; a
truthy non-dict would raise in the Python loader and is outside the
model (the configuration surface declares these entries as mappings). -/
def yamlDict (v : Option JVal) : List (Str × JVal) :=
  match v with
  | some (.obj l) => l
  | _ => []

/-- String-list coercion used for the capability model lists
(routing.py:97-112): keep the stripped `str()` of each item of a list,
skipping empties; a non-list yields the empty list. -/
def strListOf (v : JVal) : List Str :=
  match v with
  | .arr items =>
    items.filterMap (fun item =>
      let model_name := pyStrip (pyStr item)
      if model_name.isEmpty then none else some model_name)
  | _ => []

/-- The `alias_to_model` merge loop of `load_routing_config`
(routing.py:78-84): an alias maps to the stripped string of the
user-file value exactly when it appears in the base aliases and in the
user aliases. -/
def aliasToModelOf (proxy_aliases user_aliases : List (Str × JVal)) : List (Str × Str) :=
  proxy_aliases.filterMap (fun p =>
    if dHasKey user_aliases p.1 then
      some (p.1, pyStrip (pyStr ((dGet user_aliases p.1).getD .null)))
    else none)

/-- The `promises` part of the same loop (routing.py:83-84). -/
def promisesOf (proxy_aliases : List (Str × JVal)) : List (Str × JVal) :=
  proxy_aliases.filterMap (fun p =>
    match p.2 with
    | .obj info =>
      match dGet info "promise".data with
      | some pv => some (p.1, if truthy pv then pv else .obj [])
      | none => none
    | _ => none)

/-- Embedding of the pure merge of `load_routing_config`
(routing.py:67-142), starting from the two parsed YAML documents
(`_read_yaml` already coerced a missing or non-dict document to `{}`;
the file access itself is outside the model). -/
def load_routing_config (proxy_data user_data : List (Str × JVal)) : RoutingConfig :=
  let proxy_aliases := yamlDict (some ((dGet proxy_data "aliases".data).getD (.obj [])))
  let user_aliases := yamlDict (some ((dGet user_data "aliases".data).getD (.obj [])))
  let user_debug_logging := yamlDict (some ((dGet user_data "debug_logging".data).getD (.obj [])))
  let proxy_thinking_models := (dGet proxy_data "thinking_capable_models".data).getD .null
  let tool_models_source :=
    match dGet user_data "tool_calling_capable_models".data with
    | some (.arr l) => JVal.arr l
    | _ => (dGet proxy_data "tool_calling_capable_models".data).getD .null
  let proxy_verbose := (dGet proxy_data "verbose_tool_logging".data).getD (.bool false)
  let user_verbose := dGet user_data "verbose_tool_logging".data
  let proxy_streaming := (dGet proxy_data "tool_call_streaming_enabled".data).getD (.bool false)
  let user_streaming := dGet user_data "tool_call_streaming_enabled".data
  { alias_to_model := aliasToModelOf proxy_aliases user_aliases
    default_alias := dGet proxy_data "default_alias".data
    promises := promisesOf proxy_aliases
    debug_logging :=
      ["request_headers", "request_body", "response_headers", "response_body"].filterMap
        (fun key =>
          match dGet user_debug_logging key.data with
          | some v => some (key.data, truthy v)
          | none => none)
    thinking_capable_models := strListOf proxy_thinking_models
    tool_calling_capable_models := strListOf tool_models_source
    verbose_tool_logging :=
      match user_verbose with
      | some v => if v = .null then truthy proxy_verbose else truthy v
      | none => truthy proxy_verbose
    tool_call_streaming_enabled :=
      match user_streaming with
      | some v => if v = .null then truthy proxy_streaming else truthy v
      | none => truthy proxy_streaming }

/-- Embedding of `resolve_model` (routing.py:145-146). -/
def resolve_model (requested : Str) (config : RoutingConfig) : Str :=
  (sGet config.alias_to_model requested).getD requested

/-! ### Capability detection (`app/capability.py`) -/

/-- The process-wide `_capability_cache` (capability.py:9), passed
explicitly as a dict from model name to capability string. -/
abbrev CapabilityCache := List (Str × Str)

/-- Embedding of `_normalize_capabilities` (capability.py:12-15). -/
def normalize_capabilities : JVal → List Str
  | .arr l =>
    l.filterMap (fun item =>
      if (pyStrip (pyStr item)).isEmpty then none
      else some (pyLower (pyStrip (pyStr item))))
  | _ => []

/-- Embedding of `get_tool_capability` (capability.py:18-42).  The
awaited backend call `client.show_model(model)` is modelled by the
explicit `backend` argument: `.ok data` for a response, `.error ()` for
a raised exception.  A successful response that is not a dict raises
`AttributeError` at `data.get` inside the `try` block, so it follows the
exception path.  The result carries the capability string, the updated
process-wide cache, and whether the backend was consulted. -/
def get_tool_capability (model : Str) (routing : RoutingConfig) (cache : CapabilityCache)
    (backend : Except Unit JVal) : Str × CapabilityCache × Bool :=
  if model ∈ routing.tool_calling_capable_models then ("structured".data, cache, false)
  else
    match sGet cache model with
    | some cached => (cached, cache, false)
    | none =>
      match backend with
      | .ok (.obj data) =>
        let capabilities := normalize_capabilities ((dGet data "capabilities".data).getD .null)
        let capability := if "tools".data ∈ capabilities then "structured".data else "none".data
        (capability, cache ++ [(model, capability)], true)
      | .ok _ => ("none".data, cache, true)
      | .error _ => ("none".data, cache, true)

/-! ### Request adaptation (`app/adapt_request.py`)

The pydantic layer is permissive (`extra="allow"`, `content: Any`), so
`request.model_dump(exclude_none=True)` is an arbitrary JSON object; the
embeddings below start from that dumped payload object. -/

/-- Fields dropped for the flattened/legacy OpenAI-compat target
(adapt_request.py:12-20). -/
def DROP_FIELDS : List Str :=
  ["thinking".data, "reasoning_effort".data, "metadata".data, "prompt_caching".data,
   "cache_control".data, "tools".data, "tool_choice".data]

/-- Fields dropped for the Messages-compatible target
(adapt_request.py:22-27). -/
def ANTHROPIC_DROP_FIELDS : List Str :=
  ["metadata".data, "prompt_caching".data, "cache_control".data, "tool_choice".data]

/-- The forced-tool-use system instruction (adapt_request.py:30). -/
def TOOL_USE_SYSTEM_INSTRUCTION : Str :=
  "You must call a tool. Do not answer in natural language.".data

/-- The stripped nonempty text of a `text`-type block, if any: one step
of the loop inside `_flatten_content` (adapt_request.py:161-168). -/
def strippedTextOf (block : JVal) : Option Str :=
  match block with
  | .obj kvs =>
    if dGet kvs "type".data = some (.str "text".data) then
      let text := pyStrip (getStrCoerced kvs "text".data)
      if text.isEmpty then none else some text
    else none
  | _ => none

/-- The `parts` accumulation loop of `_flatten_content`
(adapt_request.py:160-168). -/
def flattenParts : List JVal → List Str
  | [] => []
  | block :: rest =>
    match block with
    | .obj kvs =>
      if dGet kvs "type".data = some (.str "text".data) then
        let text := pyStrip (getStrCoerced kvs "text".data)
        if text.isEmpty then flattenParts rest else text :: flattenParts rest
      else flattenParts rest
    | _ => flattenParts rest

/-- Embedding of `_flatten_content` (adapt_request.py:154-170). -/
def flatten_content : JVal → Str
  | .str s => s
  | .arr blocks => List.intercalate "\n\n".data (flattenParts blocks)
  | _ => []

/-- One OpenAI-compat message (models_ollama.py:9-12): `role` as taken
from the source message, `content` always a flat string. -/
structure OpenAIMessage where
  role : Option JVal
  content : Str
deriving DecidableEq

/-- The OpenAI-compat request shape (models_ollama.py:15-27), restricted
to the fields `to_openai_compat` fills. -/
structure OpenAIChatCompletionsRequest where
  model : Str
  messages : List OpenAIMessage
  max_tokens : Option JVal
  temperature : Option JVal
  stream : Bool
deriving DecidableEq

/-- Embedding of `to_openai_compat` (adapt_request.py:33-53).  A message
that is not a dict cannot occur in a dumped validated request (pydantic
parses each message into a `Message` model); it is mapped with empty
role and content. -/
def to_openai_compat (payload : List (Str × JVal)) (resolved_model : Str) :
    OpenAIChatCompletionsRequest :=
  let p := DROP_FIELDS.foldl dPop payload
  let msgs :=
    match dGet p "messages".data with
    | some (.arr l) => l
    | _ => []
  { model := resolved_model
    messages := msgs.map (fun message =>
      match message with
      | .obj kvs =>
        let content :=
          match dGet kvs "content".data with
          | some (.arr l) => flatten_content (.arr l)
          | some (.str s) => s
          | _ => []
        { role := dGet kvs "role".data, content := content }
      | _ => { role := none, content := [] })
    max_tokens := dGet p "max_tokens".data
    temperature := dGet p "temperature".data
    stream := false }

/-- Embedding of `to_anthropic_compat` (adapt_request.py:56-74). -/
def to_anthropic_compat (payload : List (Str × JVal)) (resolved_model : Str) :
    List (Str × JVal) :=
  let p := ANTHROPIC_DROP_FIELDS.foldl dPop payload
  let p := dSet p "model".data (.str resolved_model)
  let p := if dHasKey p "stream".data then p else dSet p "stream".data (.bool false)
  let msgs :=
    match dGet p "messages".data with
    | some (.arr l) => l
    | _ => []
  let normalized := msgs.map (fun message =>
    match message with
    | .obj kvs =>
      let content :=
        match dGet kvs "content".data with
        | some (.arr l) => JVal.arr l
        | some (.str s) => JVal.str s
        | _ => JVal.str []
      JVal.obj (dSet kvs "content".data content)
    | other => other)
  dSet p "messages".data (.arr normalized)

/-- The result record of the thinking policy (adapt_request.py:77-86). -/
structure ThinkingPolicyResult where
  thinking_blocks : Nat
  redacted_blocks : Nat
  dropped_blocks : Nat
  thinking_capable : Bool
deriving DecidableEq

/-- Whether a block is a dict of type `thinking`. -/
def isThinkingBlock (b : JVal) : Bool :=
  match b with
  | .obj kvs => dGet kvs "type".data = some (.str "thinking".data)
  | _ => false

/-- Whether a block is a dict of type `redacted_thinking`. -/
def isRedactedBlock (b : JVal) : Bool :=
  match b with
  | .obj kvs => dGet kvs "type".data = some (.str "redacted_thinking".data)
  | _ => false

/-- The per-content-list loop of `apply_thinking_policy`
(adapt_request.py:107-127): kept blocks plus the thinking, redacted and
dropped counts contributed by this list. -/
def thinkingFilter (thinking_capable : Bool) : List JVal → List JVal × Nat × Nat × Nat
  | [] => ([], 0, 0, 0)
  | block :: rest =>
    let tf := thinkingFilter thinking_capable rest
    if isThinkingBlock block then
      if thinking_capable then (block :: tf.1, tf.2.1 + 1, tf.2.2.1, tf.2.2.2)
      else (tf.1, tf.2.1 + 1, tf.2.2.1, tf.2.2.2 + 1)
    else if isRedactedBlock block then
      if thinking_capable then (block :: tf.1, tf.2.1, tf.2.2.1 + 1, tf.2.2.2)
      else (tf.1, tf.2.1, tf.2.2.1 + 1, tf.2.2.2 + 1)
    else (block :: tf.1, tf.2.1, tf.2.2.1, tf.2.2.2)

/-- The per-message step of `apply_thinking_policy` (adapt_request.py:
100-129): a message that is not a dict, or whose content is not a list,
is left alone and contributes no counts. -/
def thinkingMessage (thinking_capable : Bool) (message : JVal) : JVal × Nat × Nat × Nat :=
  match message with
  | .obj kvs =>
    match dGet kvs "content".data with
    | some (.arr content) =>
      let tf := thinkingFilter thinking_capable content
      (JVal.obj (dSet kvs "content".data (.arr tf.1)), tf.2)
    | _ => (message, 0, 0, 0)
  | _ => (message, 0, 0, 0)

/-- Embedding of `apply_thinking_policy` (adapt_request.py:89-137). -/
def apply_thinking_policy (payload : List (Str × JVal)) (thinking_capable : Bool) :
    List (Str × JVal) × ThinkingPolicyResult :=
  match dGet payload "messages".data with
  | some (.arr msgs) =>
    let results := msgs.map (thinkingMessage thinking_capable)
    (dSet payload "messages".data (.arr (results.map (fun x => x.1))),
     ⟨(results.map (fun x => x.2.1)).sum, (results.map (fun x => x.2.2.1)).sum,
      (results.map (fun x => x.2.2.2)).sum, thinking_capable⟩)
  | _ => (payload, ⟨0, 0, 0, thinking_capable⟩)

/-- Word characters of the regex `\b` boundary, modelled for the ASCII
range the protocol text lives in. -/
def isWordChar (c : Char) : Bool :=
  ('a' ≤ c ∧ c ≤ 'z') ∨ ('A' ≤ c ∧ c ≤ 'Z') ∨ ('0' ≤ c ∧ c ≤ '9') ∨ c = '_'

/-- The literal token of `_USE_TOOLS_PATTERN` (adapt_request.py:29). -/
def useToolsTarget : Str := "use_tools".data

/-- Whether a word-bounded, case-insensitive `use_tools` match starts at
the head of `s` (the boundary before the head is the caller's business). -/
def matchesUseTools (s : Str) : Bool :=
  decide (pyLower (s.take 9) = useToolsTarget) &&
    (match s.drop 9 with
     | [] => true
     | c :: _ => ! isWordChar c)

/-- Left-to-right scan of `_USE_TOOLS_PATTERN.subn("", text)`: remove
every word-bounded case-insensitive occurrence of `use_tools`, counting
removals.  `prevWord` says whether the character before the current
position in the original text is a word character (false at the start;
after a removal it is the final `s` of the removed token, so true). -/
def subnUseToolsGo : Nat → Bool → Str → Str × Nat
  | _, _, [] => ([], 0)
  | 0, _, _ => ([], 0)
  | fuel + 1, prevWord, c :: rest =>
    if ¬ prevWord ∧ matchesUseTools (c :: rest) then
      ((subnUseToolsGo fuel true ((c :: rest).drop 9)).1,
       (subnUseToolsGo fuel true ((c :: rest).drop 9)).2 + 1)
    else
      (c :: (subnUseToolsGo fuel (isWordChar c) rest).1,
       (subnUseToolsGo fuel (isWordChar c) rest).2)

/-- The scan itself, with enough fuel for the whole text. -/
def subnUseTools (prevWord : Bool) (s : Str) : Str × Nat :=
  subnUseToolsGo s.length prevWord s

/-- Embedding of `_strip_use_tools_marker` (adapt_request.py:212-216). -/
def strip_use_tools_marker (text : Str) : Str × Bool :=
  if (subnUseTools false text).2 = 0 then (text, false)
  else ((subnUseTools false text).1, true)

/-- The per-block step of `_apply_use_tools_marker` for list content
(adapt_request.py:194-205). -/
def useToolsBlock (block : JVal) : JVal × Bool :=
  match block with
  | .obj bkvs =>
    if dGet bkvs "type".data = some (.str "text".data) then
      let st := strip_use_tools_marker (getStrCoerced bkvs "text".data)
      (if st.2 then JVal.obj (dSet bkvs "text".data (.str st.1)) else block, st.2)
    else (block, false)
  | _ => (block, false)

/-- The per-message step of `_apply_use_tools_marker`
(adapt_request.py:178-209): only `user`-role dict messages are touched. -/
def useToolsMessage (message : JVal) : JVal × Bool :=
  match message with
  | .obj kvs =>
    if dGet kvs "role".data = some (.str "user".data) then
      match dGet kvs "content".data with
      | some (.str s) =>
        let st := strip_use_tools_marker s
        (if st.2 then JVal.obj (dSet kvs "content".data (.str st.1)) else message, st.2)
      | some (.arr blocks) =>
        let ub := blocks.map useToolsBlock
        let changed_any := ub.any (fun x => x.2)
        (if changed_any then JVal.obj (dSet kvs "content".data (.arr (ub.map (fun x => x.1))))
         else message, changed_any)
      | _ => (message, false)
    else (message, false)
  | _ => (message, false)

/-- Embedding of `_apply_use_tools_marker` (adapt_request.py:173-209).
The Python mutates messages in place inside the payload's list; the
embedding rebuilds the payload with the updated messages (identical
entries when nothing changed). -/
def apply_use_tools_marker (payload : List (Str × JVal)) : List (Str × JVal) × Bool :=
  match dGet payload "messages".data with
  | some (.arr msgs) =>
    let results := msgs.map useToolsMessage
    (dSet payload "messages".data (.arr (results.map (fun x => x.1))),
     results.any (fun x => x.2))
  | _ => (payload, false)

/-- Embedding of `_ensure_tool_use_system_instruction`
(adapt_request.py:219-230). -/
def ensure_tool_use_system_instruction (payload : List (Str × JVal)) : List (Str × JVal) :=
  let blocks : List JVal :=
    match dGet payload "system".data with
    | some (.str s) => [.obj [("type".data, .str "text".data), ("text".data, .str s)]]
    | some (.arr l) => l
    | some .null => []
    | none => []
    | some other => [.obj [("type".data, .str "text".data), ("text".data, .str (pyStr other))]]
  dSet payload "system".data
    (.arr (blocks ++ [.obj [("type".data, .str "text".data),
                            ("text".data, .str TOOL_USE_SYSTEM_INSTRUCTION)]]))

/-- The requested model of the dumped payload (`request.model`; pydantic
guarantees a string). -/
def requestedModelOf (payload : List (Str × JVal)) : Str :=
  match dGet payload "model".data with
  | some (.str m) => m
  | _ => []

/-- Embedding of `prepare_anthropic_payload` (adapt_request.py:140-151),
starting from the `model_dump(exclude_none=True)` payload of the
validated request. -/
def prepare_anthropic_payload (payload : List (Str × JVal)) (routing : RoutingConfig) :
    List (Str × JVal) × ThinkingPolicyResult × Str :=
  let resolved_model := resolve_model (requestedModelOf payload) routing
  let p0 := to_anthropic_compat payload resolved_model
  let marked := apply_use_tools_marker p0
  let p1 :=
    if marked.2 ∧ truthy ((dGet marked.1 "tools".data).getD .null) then
      let pe := ensure_tool_use_system_instruction marked.1
      if dHasKey pe "temperature".data then pe else dSet pe "temperature".data (.num 0)
    else marked.1
  let thinking_capable := decide (resolved_model ∈ routing.thinking_capable_models)
  ((apply_thinking_policy p1 thinking_capable).1,
   (apply_thinking_policy p1 thinking_capable).2, resolved_model)

/-! ### Stream translation (`app/adapt_response.py`) -/

/-- Python `line.decode("utf-8", errors="replace")`: a UTF-8 decoder
emitting `U+FFFD` for malformed bytes (one replacement per rejected
leading byte; the exact replacement-run granularity for malformed input
differs from CPython in corners no claim exercises). -/
def decodeUtf8ReplaceGo : Nat → List Nat → Str
  | _, [] => []
  | 0, _ => []
  | fuel + 1, b :: rest =>
    if b < 0x80 then Char.ofNat b :: decodeUtf8ReplaceGo fuel rest
    else if 0xC2 ≤ b ∧ b ≤ 0xDF then
      match rest with
      | c1 :: rest' =>
        if 0x80 ≤ c1 ∧ c1 ≤ 0xBF then
          Char.ofNat ((b - 0xC0) * 64 + (c1 - 0x80)) :: decodeUtf8ReplaceGo fuel rest'
        else Char.ofNat 0xFFFD :: decodeUtf8ReplaceGo fuel (c1 :: rest')
      | [] => [Char.ofNat 0xFFFD]
    else if 0xE0 ≤ b ∧ b ≤ 0xEF then
      match rest with
      | c1 :: c2 :: rest' =>
        if (0x80 ≤ c1 ∧ c1 ≤ 0xBF) ∧ (0x80 ≤ c2 ∧ c2 ≤ 0xBF) ∧
           (b ≠ 0xE0 ∨ 0xA0 ≤ c1) ∧ (b ≠ 0xED ∨ c1 ≤ 0x9F) then
          Char.ofNat ((b - 0xE0) * 4096 + (c1 - 0x80) * 64 + (c2 - 0x80)) ::
            decodeUtf8ReplaceGo fuel rest'
        else Char.ofNat 0xFFFD :: decodeUtf8ReplaceGo fuel (c1 :: c2 :: rest')
      | [c1] => Char.ofNat 0xFFFD :: decodeUtf8ReplaceGo fuel [c1]
      | [] => [Char.ofNat 0xFFFD]
    else if 0xF0 ≤ b ∧ b ≤ 0xF4 then
      match rest with
      | c1 :: c2 :: c3 :: rest' =>
        if (0x80 ≤ c1 ∧ c1 ≤ 0xBF) ∧ (0x80 ≤ c2 ∧ c2 ≤ 0xBF) ∧ (0x80 ≤ c3 ∧ c3 ≤ 0xBF) ∧
           (b ≠ 0xF0 ∨ 0x90 ≤ c1) ∧ (b ≠ 0xF4 ∨ c1 ≤ 0x8F) then
          Char.ofNat ((b - 0xF0) * 262144 + (c1 - 0x80) * 4096 + (c2 - 0x80) * 64 + (c3 - 0x80)) ::
            decodeUtf8ReplaceGo fuel rest'
        else Char.ofNat 0xFFFD :: decodeUtf8ReplaceGo fuel (c1 :: c2 :: c3 :: rest')
      | [c1, c2] => Char.ofNat 0xFFFD :: decodeUtf8ReplaceGo fuel [c1, c2]
      | [c1] => Char.ofNat 0xFFFD :: decodeUtf8ReplaceGo fuel [c1]
      | [] => [Char.ofNat 0xFFFD]
    else Char.ofNat 0xFFFD :: decodeUtf8ReplaceGo fuel rest

/-- The decoder itself, with enough fuel for every byte. -/
def decodeUtf8Replace (bytes : List Nat) : Str :=
  decodeUtf8ReplaceGo bytes.length bytes

/-- The in-place tool repair of a parsed streaming event
(adapt_response.py:95-132): a `content_block_start` event carrying a
`tool_use` content block gets that block repaired when the request
declared tools; everything else passes through. -/
def repairStreamEvent (request_tools : Option (List JVal)) (event : JVal) : JVal :=
  match event, request_tools with
  | .obj kvs, some tools =>
    if dGet kvs "type".data = some (.str "content_block_start".data) then
      match dGet kvs "content_block".data with
      | some (.obj cb) =>
        if dGet cb "type".data = some (.str "tool_use".data) then
          match (repair_tool_use_blocks [.obj cb] (some tools)).1 with
          | rb :: _ => .obj (dSet kvs "content_block".data rb)
          | [] => .obj kvs
        else .obj kvs
      | _ => .obj kvs
    else .obj kvs
  | _, _ => event

/-- Parse one `data` payload and re-emit it as a compact SSE frame,
skipping malformed JSON (adapt_response.py:86-135). -/
def emitEvent (request_tools : Option (List JVal)) (data_str : Str) : List Str :=
  match jsonLoads data_str with
  | none => []
  | some event =>
    ["data: ".data ++ jDumpCompact (repairStreamEvent request_tools event) ++ "\n\n".data]

/-- The body of the `for line in lines[:-1]` loop, after decoding
(adapt_response.py:65-135): strip, dispatch on the `data:` prefix, pass
`[DONE]` through, drop SSE metadata lines, parse and re-emit. -/
def handleLineStr (request_tools : Option (List JVal)) (line_str0 : Str) : List Str :=
  let line_str := pyStrip line_str0
  if line_str.isEmpty then []
  else if pyStartsWith line_str "data: ".data then
    let data_str := pyStrip (line_str.drop 6)
    if data_str = "[DONE]".data then ["data: [DONE]\n\n".data]
    else if data_str.isEmpty then []
    else emitEvent request_tools data_str
  else if pyStartsWith line_str "event:".data ∨ pyStartsWith line_str "id:".data then []
  else emitEvent request_tools line_str

/-- One complete line of the upstream byte stream: decode then handle. -/
def processStreamLine (request_tools : Option (List JVal)) (line : List Nat) : List Str :=
  handleLineStr request_tools (decodeUtf8Replace line)

/-- Python `buffer.split(b"\n")`: newline-separated segments, always at
least one, the last being the tail after the final newline. -/
def pySplitNL : List Nat → List (List Nat)
  | [] => [[]]
  | b :: rest =>
    if b = 10 then [] :: pySplitNL rest
    else
      match pySplitNL rest with
      | [] => [[b]]
      | seg :: segs => (b :: seg) :: segs

/-- One iteration of the `async for chunk in chunk_iterator` loop of
`stream_from_anthropic_compat` (adapt_response.py:58-135): append the
chunk to the pending buffer, split on newlines, process every complete
line in order, keep the remainder as the new buffer. -/
def feedChunk (request_tools : Option (List JVal)) (st : List Nat × List Str)
    (chunk : List Nat) : List Nat × List Str :=
  let lines := pySplitNL (st.1 ++ chunk)
  (lines.getLastD [],
   st.2 ++ (lines.dropLast.map (processStreamLine request_tools)).flatten)

/-- Embedding of `stream_from_anthropic_compat` (adapt_response.py:
40-143): the async generator becomes the function from the list of
received byte chunks to the list of yielded SSE frames.  The unused
`model` parameter is omitted; the trailing buffer at stream end is
discarded (it is only logged). -/
def stream_from_anthropic_compat (request_tools : Option (List JVal))
    (chunks : List (List Nat)) : List Str :=
  (chunks.foldl (feedChunk request_tools) ([], [])).2

/-- Reference processing of the fully assembled byte stream: every
newline-terminated line in order, the trailing segment discarded. -/
def streamOneShot (request_tools : Option (List JVal)) (bytes : List Nat) : List Str :=
  (((pySplitNL bytes).dropLast).map (processStreamLine request_tools)).flatten

/-! ### Predicates and helpers used by the statements -/

/-- Reading decimal digit characters back into a number. -/
def natVal (s : Str) : Nat :=
  s.foldl (fun a c => a * 10 + (c.toNat - 48)) 0

/-- Whether a block is a dict of type `tool_use` (tool_repair.py:42). -/
def isToolUseBlock (b : JVal) : Bool :=
  match b with
  | .obj kvs => decide (dGet kvs "type".data = some (.str "tool_use".data))
  | _ => false

/-- The validation predicate of the repair loop (tool_repair.py:64-65):
a `tool_use` dict whose stripped name is empty or, lower-cased, not a
member of the declared tool-name set. -/
def invalidToolUse (ns : List Str) (b : JVal) : Bool :=
  match b with
  | .obj kvs =>
    if dGet kvs "type".data = some (.str "tool_use".data) then
      let tn := pyStrip (getStrCoerced kvs "name".data)
      tn.isEmpty || decide (pyLower tn ∉ ns)
    else false
  | _ => false

/-- Case-insensitive substring test (the reading of "contains the
substring, case-insensitively" in the spec). -/
def containsCI (needle : Str) : Str → Bool
  | [] => needle.isEmpty
  | c :: rest =>
    decide (pyLower ((c :: rest).take needle.length) = pyLower needle) || containsCI needle rest

/-- A `text` block whose text has no word-bounded `use_tools`
occurrence (non-text blocks are vacuously clean). -/
def blockTextClean (b : JVal) : Bool :=
  match b with
  | .obj bkvs =>
    if dGet bkvs "type".data = some (.str "text".data) then
      decide ((subnUseTools false (getStrCoerced bkvs "text".data)).2 = 0)
    else true
  | _ => true

/-- A message none of whose user-authored text carries a word-bounded
`use_tools` occurrence; non-user roles are vacuously clean. -/
def messageMarkerClean (m : JVal) : Bool :=
  match m with
  | .obj kvs =>
    if dGet kvs "role".data = some (.str "user".data) then
      match dGet kvs "content".data with
      | some (.str s) => decide ((subnUseTools false s).2 = 0)
      | some (.arr blocks) => blocks.all blockTextClean
      | _ => true
    else true
  | _ => true

/-- Every user-role message text of the payload is free of word-bounded
`use_tools` occurrences. -/
def payloadMarkerClean (p : List (Str × JVal)) : Bool :=
  match dGet p "messages".data with
  | some (.arr msgs) => msgs.all messageMarkerClean
  | _ => true

/-- Whether any message text of the payload (any role; string content or
`text`-type blocks) contains the substring `use_tools`
case-insensitively. -/
def payloadHasUseTools (p : List (Str × JVal)) : Bool :=
  match dGet p "messages".data with
  | some (.arr msgs) =>
    msgs.any (fun m =>
      match m with
      | .obj kvs =>
        match dGet kvs "content".data with
        | some (.str s) => containsCI useToolsTarget s
        | some (.arr blocks) =>
          blocks.any (fun b =>
            match b with
            | .obj bkvs =>
              if dGet bkvs "type".data = some (.str "text".data) then
                containsCI useToolsTarget (getStrCoerced bkvs "text".data)
              else false
            | _ => false)
        | _ => false
      | _ => false)
  | _ => false

/-- The stripped, string-coerced tool name of a block (tool_repair.py:47). -/
def toolNameOf (b : JVal) : Str :=
  match b with
  | .obj kvs => pyStrip (getStrCoerced kvs "name".data)
  | _ => []

/-- Byte-at-a-time reformulation of the stream translator's buffering:
on a newline, emit the pending line's frames; otherwise extend the
pending line.  Used to relate chunked and one-shot processing. -/
def byteStep (request_tools : Option (List JVal)) (st : List Nat × List Str) (b : Nat) :
    List Nat × List Str :=
  if b = 10 then ([], st.2 ++ processStreamLine request_tools st.1)
  else (st.1 ++ [b], st.2)


/-- The truncated digest family behind the ids of a fixed
`(name, input)` pair across positions, used to exhibit that 64-bit
truncation cannot be position-injective over all of `Nat`. -/
def c3Digest (p : Nat) : Str :=
  (sha256Hex (utf8 (hashSource "x".data (.obj []) p))).take 16

/-! ### Concrete example values used in witnesses and counterexamples -/

/-- A well-formed `tool_use` block: non-empty id, object input, and a
name that trims and lower-cases into the declared set. -/
def exToolUseOk : List (Str × JVal) :=
  [("type".data, .str "tool_use".data), ("id".data, .str "toolu_1".data),
   ("name".data, .str " Get_Weather".data),
   ("input".data, .obj [("city".data, .str "Berlin".data)])]

/-- A declared tool list carrying `get_weather`. -/
def exTools : List JVal := [.obj [("name".data, .str "get_weather".data)]]

/-- A valid `tool_use` block whose input is a stringified JSON object. -/
def exToolUseStr : List (Str × JVal) :=
  [("type".data, .str "tool_use".data), ("name".data, .str "read_file".data),
   ("id".data, .str "x".data), ("input".data, .str "\x7b\x7d".data)]

/-- A `tool_use` block naming a tool outside the declared set. -/
def exToolUseBad : List (Str × JVal) :=
  [("type".data, .str "tool_use".data), ("name".data, .str "delete_everything".data),
   ("id".data, .str "y".data)]

/-- The declared tool list of the repair counterexample. -/
def exToolsRead : List JVal := [.obj [("name".data, .str "read_file".data)]]

/-- A `thinking` content block. -/
def exThinking : JVal := .obj [("type".data, .str "thinking".data), ("thinking".data, .str "t".data)]

/-- A `text` content block. -/
def exText : JVal := .obj [("type".data, .str "text".data), ("text".data, .str "hello".data)]

/-- A `redacted_thinking` content block. -/
def exRedacted : JVal :=
  .obj [("type".data, .str "redacted_thinking".data), ("data".data, .str "r".data)]

/-- Base-config document of the routing example: alias `sonnet` declares
only a promise. -/
def exProxyData : List (Str × JVal) :=
  [("aliases".data,
    .obj [("sonnet".data, .obj [("promise".data, .obj [("tools".data, .bool true)])])]),
   ("default_alias".data, .str "sonnet".data)]

/-- User-config document of the routing example: maps `sonnet` and an
alias unknown to the base file. -/
def exUserData : List (Str × JVal) :=
  [("aliases".data,
    .obj [("sonnet".data, .str "modelX".data), ("extra".data, .str "y".data)])]

/-- Routing snapshot of the capability example: only `m1` is statically
tool-calling capable. -/
def exRouting : RoutingConfig :=
  { alias_to_model := []
    default_alias := none
    promises := []
    debug_logging := []
    thinking_capable_models := []
    tool_calling_capable_models := ["m1".data]
    verbose_tool_logging := false
    tool_call_streaming_enabled := false }

/-! ## Dictionary lemmas -/

theorem dGet_nil (k : Str) : dGet [] k = none := rfl

theorem dGet_cons (p : Str × JVal) (d : List (Str × JVal)) (k : Str) :
    dGet (p :: d) k = if p.1 = k then some p.2 else dGet d k := by
  unfold dGet
  by_cases hp : p.1 = k
  · rw [List.find?_cons_of_pos _ (by simpa using hp)]
    simp [hp]
  · rw [List.find?_cons_of_neg _ (by simpa using hp)]
    simp [hp]

theorem dGet_mapSet_ne (d : List (Str × JVal)) (k : Str) (v : JVal) (k' : Str) (h : k' ≠ k) :
    dGet (d.map (fun p => if p.1 = k then (k, v) else p)) k' = dGet d k' := by
  induction d with
  | nil => rfl
  | cons p rest ih =>
    by_cases hp : p.1 = k
    · simp only [List.map_cons, hp, if_true]
      rw [dGet_cons, dGet_cons]
      have h1 : ¬ (k, v).1 = k' := fun hh => h hh.symm
      have h2 : ¬ p.1 = k' := fun hh => h (hp ▸ hh ▸ rfl)
      simp only [h1, h2, if_false]
      exact ih
    · simp only [List.map_cons, hp, if_false]
      rw [dGet_cons, dGet_cons]
      by_cases hk : p.1 = k'
      · simp [hk]
      · simp only [hk, if_false]
        exact ih

theorem dGet_mapSet_self (d : List (Str × JVal)) (k : Str) (v : JVal)
    (h : dHasKey d k = true) :
    dGet (d.map (fun p => if p.1 = k then (k, v) else p)) k = some v := by
  induction d with
  | nil => simp [dHasKey] at h
  | cons p rest ih =>
    simp only [dHasKey, List.any_cons, Bool.or_eq_true, decide_eq_true_eq] at h
    by_cases hp : p.1 = k
    · simp only [List.map_cons, hp, if_true]
      rw [dGet_cons]
      simp
    · simp only [List.map_cons, hp, if_false]
      rw [dGet_cons]
      simp only [hp, if_false]
      cases h with
      | inl h => exact absurd h hp
      | inr h => exact ih h

theorem dGet_dSet (d : List (Str × JVal)) (k : Str) (v : JVal) (k' : Str) :
    dGet (dSet d k v) k' = if k' = k then some v else dGet d k' := by
  unfold dSet
  cases hany : d.any (fun p => decide (p.1 = k)) with
  | true =>
    simp only [hany, if_true]
    by_cases hk : k' = k
    · subst hk
      simp only [if_true]
      exact dGet_mapSet_self d k' v hany
    · simp only [hk, if_false]
      exact dGet_mapSet_ne d k v k' hk
  | false =>
    simp only [hany, Bool.false_eq_true, if_false]
    have hfind : List.find? (fun p => decide (p.1 = k)) d = none :=
      List.find?_eq_none.mpr (fun x hx => by
        simp only [decide_eq_true_eq]
        intro hxk
        have hcontra : d.any (fun p => decide (p.1 = k)) = true :=
          List.any_eq_true.mpr ⟨x, hx, by simp [hxk]⟩
        rw [hany] at hcontra
        cases hcontra)
    unfold dGet
    rw [List.find?_append]
    by_cases hk : k' = k
    · subst hk
      rw [hfind]
      simp [List.find?]
    · cases hfd : List.find? (fun p => decide (p.1 = k')) d with
      | some x => simp [hfd, hk]
      | none =>
        have h1 : ¬ (k, v).1 = k' := fun hh => hk hh.symm
        simp only [hfd, List.find?, h1, decide_eq_true_eq]
        simp [hk, h1]

theorem dGet_dPop (d : List (Str × JVal)) (k k' : Str) :
    dGet (dPop d k) k' = if k' = k then none else dGet d k' := by
  induction d with
  | nil => simp [dGet, dPop]
  | cons p rest ih =>
    simp only [dPop, List.filter_cons, decide_not] at *
    by_cases hp : p.1 = k
    · simp only [hp, decide_True, Bool.not_true, Bool.false_eq_true, if_false]
      rw [ih]
      by_cases hk : k' = k
      · simp [hk]
      · have h2 : ¬ p.1 = k' := fun hh => hk (hh ▸ hp ▸ rfl)
        simp [hk, dGet_cons, h2]
    · simp only [hp, decide_False, Bool.not_false, if_true]
      rw [dGet_cons, dGet_cons]
      by_cases hk2 : p.1 = k'
      · by_cases hk : k' = k
        · exact absurd (hk ▸ hk2) hp
        · simp [hk2, hk]
      · simp only [hk2, if_false]
        exact ih

theorem dHasKey_iff (d : List (Str × JVal)) (k : Str) :
    dHasKey d k = true ↔ (dGet d k).isSome = true := by
  induction d with
  | nil => simp [dHasKey, dGet]
  | cons p rest ih =>
    rw [dGet_cons]
    simp only [dHasKey, List.any_cons, Bool.or_eq_true, decide_eq_true_eq]
    by_cases hp : p.1 = k
    · constructor
      · intro _
        rw [if_pos hp]
        rfl
      · intro _
        exact Or.inl hp
    · simp only [hp, if_false, false_or]
      exact ih

/-! ## Tool repair lemmas -/

theorem repairLoop_length (ns : Option (List Str)) (idx : Nat) (content : List JVal) :
    (repairLoop ns idx content).1.length = content.length := by
  induction content generalizing idx with
  | nil => rfl
  | cons b rest ih => simp [repairLoop, ih]

theorem repairLoop_getElem (ns : Option (List Str)) (idx i : Nat) (content : List JVal) :
    (repairLoop ns idx content).1[i]? =
      (content[i]?).map (fun b => (repairBlock ns (idx + i) b).1) := by
  induction content generalizing idx i with
  | nil => simp [repairLoop]
  | cons b rest ih =>
    cases i with
    | zero => simp [repairLoop]
    | succ j =>
      simp only [repairLoop, List.getElem?_cons_succ]
      have harith : idx + (j + 1) = idx + 1 + j := by omega
      rw [harith]
      exact ih (idx + 1) j

theorem repairBlock_notToolUse (ns : Option (List Str)) (idx : Nat) (b : JVal)
    (h : isToolUseBlock b = false) : repairBlock ns idx b = (b, ⟨0, 0, 0⟩) := by
  cases b with
  | obj kvs =>
    simp only [isToolUseBlock, decide_eq_false_iff_not] at h
    simp [repairBlock, h]
  | null => rfl
  | bool x => rfl
  | num x => rfl
  | str x => rfl
  | arr x => rfl

theorem repairBlock_invalid (nset : List Str) (idx : Nat) (b : JVal)
    (h : invalidToolUse nset b = true) :
    (repairBlock (some nset) idx b).1 = unavailableBlock (toolNameOf b) := by
  cases b with
  | obj kvs =>
    unfold invalidToolUse at h
    by_cases ht : dGet kvs "type".data = some (.str "tool_use".data)
    · simp only [ht, if_true, Bool.or_eq_true, List.isEmpty_eq_true, decide_eq_true_eq] at h
      unfold repairBlock toolNameOf
      simp only [ht, if_true]
      rw [if_pos]
      rcases h with h | h
      · exact Or.inl (by simp [h])
      · exact Or.inr h
    · simp [ht] at h
  | null => simp [invalidToolUse] at h
  | bool x => simp [invalidToolUse] at h
  | num x => simp [invalidToolUse] at h
  | str x => simp [invalidToolUse] at h
  | arr x => simp [invalidToolUse] at h

theorem repairBlock_valid (nset : List Str) (idx : Nat) (kvs : List (Str × JVal))
    (ht : dGet kvs "type".data = some (.str "tool_use".data))
    (h : invalidToolUse nset (.obj kvs) = false) :
    (repairBlock (some nset) idx (.obj kvs)).1 =
      .obj (repairToolUseKvs (toolNameOf (.obj kvs)) idx kvs).1 := by
  unfold invalidToolUse at h
  simp only [ht, if_true, Bool.or_eq_false_iff, decide_eq_false_iff_not, not_not] at h
  unfold repairBlock toolNameOf
  simp only [ht, if_true]
  rw [if_neg]
  simp only [not_or, not_not]
  exact ⟨by simp [h.1], h.2⟩

theorem repairBlock_dropped (nset : List Str) (idx : Nat) (b : JVal) :
    (repairBlock (some nset) idx b).2.dropped_invalid_tools =
      if invalidToolUse nset b then 1 else 0 := by
  cases b with
  | obj kvs =>
    unfold repairBlock invalidToolUse
    by_cases ht : dGet kvs "type".data = some (.str "tool_use".data)
    · simp only [ht, if_true]
      by_cases hv : (pyStrip (getStrCoerced kvs "name".data)).isEmpty ∨
          pyLower (pyStrip (getStrCoerced kvs "name".data)) ∉ nset
      · rw [if_pos hv, if_pos]
        rcases hv with hv | hv
        · simp [hv]
        · simp [hv]
      · rw [if_neg hv, if_neg]
        simp only [not_or, not_not] at hv
        simp [hv.1, hv.2]
    · simp [ht]
  | null => simp [repairBlock, invalidToolUse]
  | bool x => simp [repairBlock, invalidToolUse]
  | num x => simp [repairBlock, invalidToolUse]
  | str x => simp [repairBlock, invalidToolUse]
  | arr x => simp [repairBlock, invalidToolUse]

theorem repairBlock_dropped_none (idx : Nat) (b : JVal) :
    (repairBlock none idx b).2.dropped_invalid_tools = 0 := by
  cases b with
  | obj kvs =>
    unfold repairBlock
    by_cases ht : dGet kvs "type".data = some (.str "tool_use".data)
    · simp [ht]
    · simp [ht]
  | null => rfl
  | bool x => rfl
  | num x => rfl
  | str x => rfl
  | arr x => rfl

theorem repairLoop_dropped (nset : List Str) (idx : Nat) (content : List JVal) :
    (repairLoop (some nset) idx content).2.dropped_invalid_tools =
      content.countP (invalidToolUse nset) := by
  induction content generalizing idx with
  | nil => rfl
  | cons b rest ih =>
    simp only [repairLoop, addStats, List.countP_cons]
    rw [repairBlock_dropped, ih (idx + 1)]
    by_cases hv : invalidToolUse nset b = true
    · simp [hv]
      omega
    · simp only [Bool.not_eq_true] at hv
      simp [hv]

theorem repairLoop_dropped_none (idx : Nat) (content : List JVal) :
    (repairLoop none idx content).2.dropped_invalid_tools = 0 := by
  induction content generalizing idx with
  | nil => rfl
  | cons b rest ih =>
    simp only [repairLoop, addStats]
    rw [repairBlock_dropped_none, ih (idx + 1)]

theorem toolNameSet_mem_ne_nil (tools : List JVal) (s : Str) (h : s ∈ toolNameSet tools) :
    s ≠ [] := by
  unfold toolNameSet at h
  rw [List.mem_filterMap] at h
  obtain ⟨t, _, ht⟩ := h
  cases t with
  | obj kvs =>
    by_cases he : (pyLower (pyStrip (getStrCoerced kvs "name".data))).isEmpty = true
    · simp [he] at ht
    · simp only [he, Bool.false_eq_true, if_false, Option.some.injEq] at ht
      subst ht
      intro hnil
      rw [hnil] at he
      exact he rfl
  | null => simp at ht
  | bool x => simp at ht
  | num x => simp at ht
  | str x => simp at ht
  | arr x => simp at ht

theorem repairToolUseKvs_key (tn : Str) (idx : Nat) (kvs : List (Str × JVal)) (k : Str)
    (hk1 : k ≠ "input".data) (hk2 : k ≠ "id".data) :
    dGet ((repairToolUseKvs tn idx kvs).1) k = dGet kvs k := by
  unfold repairToolUseKvs
  repeat' split
  all_goals first
  | rfl
  | (simp [dGet_dSet, hk1, hk2]; done)
  | (dsimp only; split <;> simp [dGet_dSet, hk1, hk2])

/-- C1: for a `tool_use` block that already has a non-empty `id`, an
object (not string) `input`, and a name that is, case-insensitively
after trimming, a member of the declared tool-name set,
`repair_tool_use_blocks([block], tools)` returns the block unchanged and
all three counters are zero. -/
theorem C1_repair_identity (kvs : List (Str × JVal)) (tools : List JVal)
    (idv nm : Str) (inp : List (Str × JVal))
    (htype : dGet kvs "type".data = some (.str "tool_use".data))
    (hid : dGet kvs "id".data = some (.str idv)) (hidne : idv ≠ [])
    (hinput : dGet kvs "input".data = some (.obj inp))
    (hname : dGet kvs "name".data = some (.str nm))
    (hmem : pyLower (pyStrip nm) ∈ toolNameSet tools) :
    repair_tool_use_blocks [.obj kvs] (some tools) = ([.obj kvs], ⟨0, 0, 0⟩) := by
  have hne : pyLower (pyStrip nm) ≠ [] := toolNameSet_mem_ne_nil tools _ hmem
  have hstripne : pyStrip nm ≠ [] := by
    intro hh
    exact hne (by rw [hh]; rfl)
  have hnmne : nm ≠ [] := by
    intro hh
    exact hstripne (by rw [hh]; rfl)
  have hienm : nm.isEmpty = false := by
    cases nm
    · exact absurd rfl hnmne
    · rfl
  have hieid : idv.isEmpty = false := by
    cases idv
    · exact absurd rfl hidne
    · rfl
  have hiestrip : (pyStrip nm).isEmpty = false := by
    cases hps : pyStrip nm
    · exact absurd hps hstripne
    · rfl
  have hgsc : getStrCoerced kvs "name".data = nm := by
    unfold getStrCoerced
    rw [hname]
    simp [truthy, pyStr, hienm]
  have hrep : repairToolUseKvs (pyStrip nm) 0 kvs = (kvs, 0, 0) := by
    unfold repairToolUseKvs
    rw [hinput]
    dsimp only
    rw [hid]
    simp [truthy, hieid]
  have hblock : repairBlock (some (toolNameSet tools)) 0 (.obj kvs) = (.obj kvs, ⟨0, 0, 0⟩) := by
    simp only [repairBlock]
    rw [if_pos htype]
    rw [hgsc, hrep]
    have hcond : ¬((pyStrip nm).isEmpty = true ∨ pyLower (pyStrip nm) ∉ toolNameSet tools) := by
      simp only [not_or, not_not]
      exact ⟨by simp [hiestrip], hmem⟩
    rw [if_neg hcond]
  show repairLoop (some (toolNameSet tools)) 0 [.obj kvs] = ([.obj kvs], ⟨0, 0, 0⟩)
  unfold repairLoop
  rw [hblock]
  rfl

/-- C10: for every content list and tool argument,
`repair_tool_use_blocks` returns a list of exactly the input's length,
and every element that is not a `tool_use` dict appears unchanged at its
original index: repair never inserts, removes or reorders elements. -/
theorem C10_repair_shape (content : List JVal) (request_tools : Option (List JVal)) :
    (repair_tool_use_blocks content request_tools).1.length = content.length ∧
    ∀ (i : Nat) (b : JVal), content[i]? = some b → isToolUseBlock b = false →
      (repair_tool_use_blocks content request_tools).1[i]? = some b := by
  constructor
  · exact repairLoop_length _ 0 content
  · intro i b hb hnb
    unfold repair_tool_use_blocks
    have h := repairLoop_getElem (request_tools.map toolNameSet) 0 i content
    rw [hb] at h
    rw [h]
    simp [repairBlock_notToolUse _ _ _ hnb]

theorem C1_repair_identity_witness :
    repair_tool_use_blocks [.obj exToolUseOk] (some exTools) = ([.obj exToolUseOk], ⟨0, 0, 0⟩) :=
  C1_repair_identity exToolUseOk exTools "toolu_1".data " Get_Weather".data
    [("city".data, .str "Berlin".data)] rfl rfl (by decide) rfl rfl (by decide)

theorem C10_repair_shape_witness :
    (repair_tool_use_blocks [.str "x".data, .obj exToolUseOk] none).1.length = 2 ∧
    (repair_tool_use_blocks [.str "x".data, .obj exToolUseOk] none).1[0]? =
      some (.str "x".data) := by
  have h := C10_repair_shape [.str "x".data, .obj exToolUseOk] none
  exact ⟨h.1, h.2 0 (.str "x".data) rfl (by decide)⟩

/-- C2 counterexample: with `tools=[{name:"read_file"}]`, the valid
first block (stringified input) is not left untouched — its input is
parsed into an object — refuting the claim's "every other block in the
list is left untouched"; the unknown-name block is replaced by the
explanatory text block and the drop counter reads 1. -/
theorem C2_counterexample :
    (repair_tool_use_blocks [.obj exToolUseStr, .obj exToolUseBad] (some exToolsRead)).1[0]? ≠
      some (.obj exToolUseStr) ∧
    (repair_tool_use_blocks [.obj exToolUseStr, .obj exToolUseBad] (some exToolsRead)).1[1]? =
      some (unavailableBlock "delete_everything".data) ∧
    (repair_tool_use_blocks [.obj exToolUseStr, .obj exToolUseBad]
      (some exToolsRead)).2.dropped_invalid_tools = 1 := by
  refine ⟨?_, ?_, ?_⟩ <;> decide

/-- C2 (amended): with a declared tool set, repair keeps the list's
length; every `tool_use` dict whose name is missing or not a
case-insensitive trimmed member of the set is replaced, at its original
position, by the text block "[Tool '<name or unknown>' not available]",
and `dropped_invalid_tools` counts exactly those blocks; every element
that is not a `tool_use` dict is left untouched at its position; a valid
`tool_use` block stays a `tool_use` dict at its position (possibly with
input parsed or id added); with a null tool argument no block is ever
dropped. -/
theorem C2_unknown_tool_dropped (content : List JVal) (tools : List JVal) :
    ((repair_tool_use_blocks content (some tools)).1.length = content.length) ∧
    (∀ (i : Nat) (b : JVal), content[i]? = some b →
       invalidToolUse (toolNameSet tools) b = true →
       (repair_tool_use_blocks content (some tools)).1[i]? =
         some (unavailableBlock (toolNameOf b))) ∧
    (∀ (i : Nat) (b : JVal), content[i]? = some b → isToolUseBlock b = false →
       (repair_tool_use_blocks content (some tools)).1[i]? = some b) ∧
    ((repair_tool_use_blocks content (some tools)).2.dropped_invalid_tools =
       content.countP (invalidToolUse (toolNameSet tools))) ∧
    (∀ (i : Nat) (b : JVal), content[i]? = some b → isToolUseBlock b = true →
       invalidToolUse (toolNameSet tools) b = false →
       ∃ kvs2, (repair_tool_use_blocks content (some tools)).1[i]? = some (.obj kvs2) ∧
         dGet kvs2 "type".data = some (.str "tool_use".data)) ∧
    ((repair_tool_use_blocks content none).2.dropped_invalid_tools = 0) := by
  refine ⟨repairLoop_length _ 0 content, ?_, ?_, repairLoop_dropped _ 0 content, ?_, repairLoop_dropped_none 0 content⟩
  · intro i b hb hinv
    unfold repair_tool_use_blocks
    dsimp only [Option.map]
    have h := repairLoop_getElem (some (toolNameSet tools)) 0 i content
    rw [hb] at h
    rw [h]
    simp [repairBlock_invalid _ _ _ hinv]
  · intro i b hb hnb
    unfold repair_tool_use_blocks
    dsimp only [Option.map]
    have h := repairLoop_getElem (some (toolNameSet tools)) 0 i content
    rw [hb] at h
    rw [h]
    simp [repairBlock_notToolUse _ _ _ hnb]
  · intro i b hb htu hinv
    unfold repair_tool_use_blocks
    dsimp only [Option.map]
    have h := repairLoop_getElem (some (toolNameSet tools)) 0 i content
    rw [hb] at h
    rw [h]
    cases b with
    | obj kvs =>
      have ht : dGet kvs "type".data = some (.str "tool_use".data) := by
        simpa [isToolUseBlock] using htu
      refine ⟨(repairToolUseKvs (toolNameOf (.obj kvs)) (0 + i) kvs).1, ?_, ?_⟩
      · simp [repairBlock_valid _ _ kvs ht hinv]
      · rw [repairToolUseKvs_key _ _ _ _ (by decide) (by decide)]
        exact ht
    | null => simp [isToolUseBlock] at htu
    | bool x => simp [isToolUseBlock] at htu
    | num x => simp [isToolUseBlock] at htu
    | str x => simp [isToolUseBlock] at htu
    | arr x => simp [isToolUseBlock] at htu

theorem C2_unknown_tool_dropped_witness :
    (repair_tool_use_blocks [.obj exToolUseStr, .obj exToolUseBad] (some exToolsRead)).1[1]? =
      some (unavailableBlock (toolNameOf (.obj exToolUseBad))) ∧
    (repair_tool_use_blocks [.obj exToolUseStr, .obj exToolUseBad]
      (some exToolsRead)).2.dropped_invalid_tools = 1 := by
  have h := C2_unknown_tool_dropped [.obj exToolUseStr, .obj exToolUseBad] exToolsRead
  constructor
  · exact h.2.1 1 (.obj exToolUseBad) rfl (by decide)
  · rw [h.2.2.2.1]
    decide

/-! ## Digit and digest lemmas for id synthesis -/

theorem char_toNat_ofNat (m : Nat) (h : m < 55296) : (Char.ofNat m).toNat = m := by
  rw [Char.ofNat, dif_pos (Or.inl h)]
  rfl

theorem natVal_natDigitsGo (fuel : Nat) : ∀ n : Nat, n < fuel → natVal (natDigitsGo fuel n) = n := by
  induction fuel with
  | zero => omega
  | succ f ih =>
    intro n h
    unfold natDigitsGo
    by_cases h10 : n < 10
    · rw [if_pos h10]
      unfold natVal
      simp only [List.foldl_cons, List.foldl_nil]
      rw [char_toNat_ofNat (48 + n) (by omega)]
      omega
    · rw [if_neg h10]
      unfold natVal
      rw [List.foldl_append]
      simp only [List.foldl_cons, List.foldl_nil]
      have ihn := ih (n / 10) (by omega)
      unfold natVal at ihn
      rw [ihn]
      rw [char_toNat_ofNat (48 + n % 10) (by omega)]
      omega

theorem natVal_natDigits (n : Nat) : natVal (natDigits n) = n :=
  natVal_natDigitsGo (n + 1) n (by omega)

theorem natDigits_inj {a b : Nat} (h : natDigits a = natDigits b) : a = b := by
  have ha := natVal_natDigits a
  rw [h, natVal_natDigits] at ha
  omega

theorem hashSource_position_inj (name : Str) (input : JVal) (p₁ p₂ : Nat)
    (hne : p₁ ≠ p₂) : hashSource name input p₁ ≠ hashSource name input p₂ := by
  intro h
  unfold hashSource at h
  have h1 := List.append_cancel_left h
  injection h1 with _ h2
  exact hne (natDigits_inj h2)

theorem bytesBE_length (w n : Nat) : (bytesBE w n).length = w := by
  induction w generalizing n with
  | zero => rfl
  | succ k ih => simp [bytesBE, ih]

theorem shaCompress_length (hs block : List Nat) : (shaCompress hs block).length = 8 := rfl

theorem shaBlocksGo_length (fuel : Nat) : ∀ (hs bytes : List Nat), hs.length = 8 →
    (shaBlocksGo fuel hs bytes).length = 8 := by
  induction fuel with
  | zero =>
    intro hs bytes h8
    cases bytes with
    | nil => exact h8
    | cons b rest => exact h8
  | succ f ih =>
    intro hs bytes h8
    cases bytes with
    | nil => exact h8
    | cons b rest => exact ih _ _ (shaCompress_length _ _)

theorem flatten_map_bytesBE_length (w : Nat) (l : List Nat) :
    ((l.map (bytesBE w)).flatten).length = w * l.length := by
  induction l with
  | nil => simp
  | cons x rest ih =>
    simp only [List.map_cons, List.flatten_cons, List.length_append, bytesBE_length, ih,
      List.length_cons, Nat.mul_succ]
    omega

theorem sha256Bytes_length (msg : List Nat) : (sha256Bytes msg).length = 32 := by
  unfold sha256Bytes shaBlocks
  rw [flatten_map_bytesBE_length, shaBlocksGo_length _ shaH0 (shaPad msg) rfl]

theorem flatten_map_byteHex_length (l : List Nat) :
    ((l.map byteHex).flatten).length = 2 * l.length := by
  induction l with
  | nil => simp
  | cons x rest ih =>
    simp only [List.map_cons, List.flatten_cons, List.length_append, ih, List.length_cons,
      Nat.mul_succ, byteHex, List.length_nil]
    omega

theorem sha256Hex_length (msg : List Nat) : (sha256Hex msg).length = 64 := by
  unfold sha256Hex
  rw [flatten_map_byteHex_length, sha256Bytes_length]

theorem hexChar_toNat_lt (m : Nat) : (hexChar m).toNat < 128 := by
  unfold hexChar
  by_cases h : m < 16
  · interval_cases m <;> decide
  · rw [List.getD_eq_default]
    · decide
    · simp only [not_lt] at h
      have h16 : ("0123456789abcdef".data).length = 16 := rfl
      omega

theorem sha256Hex_char_lt (msg : List Nat) (c : Char) (hc : c ∈ sha256Hex msg) :
    c.toNat < 128 := by
  unfold sha256Hex at hc
  rw [List.mem_flatten] at hc
  obtain ⟨l, hl, hcl⟩ := hc
  rw [List.mem_map] at hl
  obtain ⟨b, _, hb⟩ := hl
  subst hb
  unfold byteHex at hcl
  simp only [List.mem_cons, List.not_mem_nil, or_false] at hcl
  rcases hcl with h | h <;> (subst h; exact hexChar_toNat_lt _)

theorem c3Digest_length (p : Nat) : (c3Digest p).length = 16 := by
  unfold c3Digest
  rw [List.length_take, sha256Hex_length]
  rfl

theorem c3Digest_char_lt (p : Nat) (i : Nat) : ((c3Digest p).getD i '0').toNat < 128 := by
  rcases hgi : (c3Digest p)[i]? with _ | c
  · simp [List.getD, hgi]
  · have hmem : c ∈ c3Digest p := List.getElem?_mem hgi
    have hmem2 : c ∈ sha256Hex (utf8 (hashSource "x".data (.obj []) p)) :=
      List.mem_of_mem_take hmem
    have := sha256Hex_char_lt _ c hmem2
    simpa [List.getD, hgi] using this

set_option maxHeartbeats 2000000 in
/-- C3 counterexample (to the universally quantified "changing position
alone, with name and input held fixed, yields a different ID"): the ID
keeps only the first 16 hex characters of the digest, so the map from
the infinitely many positions into the finitely many truncated digests
cannot be injective; two distinct positions with equal IDs exist for
name `"x"` and input `{}`. -/
theorem C3_counterexample :
    ¬ ∀ (name : Str) (input : JVal) (p₁ p₂ : Nat), p₁ ≠ p₂ →
        generate_tool_use_id name input p₁ ≠ generate_tool_use_id name input p₂ := by
  intro hall
  have hmap : ∃ p₁ p₂ : Nat, p₁ ≠ p₂ ∧
      (fun p => (fun i : Fin 16 => (⟨((c3Digest p).getD i.1 '0').toNat, c3Digest_char_lt p i.1⟩ :
        Fin 128))) p₁ =
      (fun p => (fun i : Fin 16 => (⟨((c3Digest p).getD i.1 '0').toNat, c3Digest_char_lt p i.1⟩ :
        Fin 128))) p₂ :=
    Finite.exists_ne_map_eq_of_infinite _
  obtain ⟨p₁, p₂, hne, hfe⟩ := hmap
  apply hall "x".data (.obj []) p₁ p₂ hne
  have hc3 : ∀ p : Nat, (sha256Hex (utf8 (hashSource "x".data (.obj []) p))).take 16 =
      c3Digest p := fun p => by rw [c3Digest]
  unfold generate_tool_use_id
  rw [hc3 p₁, hc3 p₂]
  congr 1
  apply List.ext_getElem (by rw [c3Digest_length, c3Digest_length])
  intro i h1 h2
  have hi16 : i < 16 := by rwa [c3Digest_length] at h1
  have hfei := congrFun hfe ⟨i, hi16⟩
  simp only [Fin.mk.injEq] at hfei
  have h4 : (c3Digest p₁).getD i '0' = (c3Digest p₂).getD i '0' := by
    have := congrArg Char.ofNat hfei
    rwa [Char.ofNat_toNat, Char.ofNat_toNat] at this
  rw [List.getD_eq_getElem?_getD, List.getD_eq_getElem?_getD] at h4
  rw [List.getElem?_eq_getElem h1, List.getElem?_eq_getElem h2] at h4
  simpa using h4

/-- C3 (amended): the synthesis is deterministic (a pure function of
name, input and position); its value is exactly `"toolu_"` followed by
the first 16 hex characters of the SHA-256 digest of the
`name:canonical-json-of-input:position` string; and changing the
position alone always changes that digest pre-image — equal IDs for
distinct positions can arise only from a collision of the truncated
digest. -/
theorem C3_id_synthesis (name : Str) (input : JVal) (p p₁ p₂ : Nat) :
    generate_tool_use_id name input p = generate_tool_use_id name input p ∧
    generate_tool_use_id name input p =
      "toolu_".data ++ (sha256Hex (utf8 (hashSource name input p))).take 16 ∧
    (p₁ ≠ p₂ → hashSource name input p₁ ≠ hashSource name input p₂) :=
  ⟨rfl, by rw [generate_tool_use_id], hashSource_position_inj name input p₁ p₂⟩

theorem C3_id_synthesis_witness :
    hashSource "x".data (.obj []) 0 ≠ hashSource "x".data (.obj []) 1 ∧
    generate_tool_use_id "x".data (.obj []) 0 ≠ generate_tool_use_id "x".data (.obj []) 1 := by
  refine ⟨(C3_id_synthesis "x".data (.obj []) 0 0 1).2.2 (by omega), ?_⟩
  decide

/-! ## Thinking policy lemmas and claim C4 -/

theorem thinkingFilter_spec (cap : Bool) (content : List JVal) :
    (thinkingFilter cap content).2.1 = content.countP isThinkingBlock ∧
    (thinkingFilter cap content).2.2.1 = content.countP isRedactedBlock ∧
    (thinkingFilter cap content).1 =
      (if cap then content
       else content.filter (fun b => !(isThinkingBlock b || isRedactedBlock b))) ∧
    (thinkingFilter cap content).2.2.2 =
      (if cap then 0 else content.countP isThinkingBlock + content.countP isRedactedBlock) := by
  induction content with
  | nil => cases cap <;> simp [thinkingFilter]
  | cons b rest ih =>
    obtain ⟨ih1, ih2, ih3, ih4⟩ := ih
    by_cases ht : isThinkingBlock b = true
    · have hr : isRedactedBlock b = false := by
        cases b with
        | obj kvs =>
          simp only [isThinkingBlock, decide_eq_true_eq] at ht
          simp [isRedactedBlock, ht]
        | null => simp [isRedactedBlock]
        | bool x => simp [isRedactedBlock]
        | num x => simp [isRedactedBlock]
        | str x => simp [isRedactedBlock]
        | arr x => simp [isRedactedBlock]
      cases cap <;>
        simp_all [thinkingFilter, List.countP_cons, ht, hr, Nat.add_comm, Nat.add_left_comm]
      omega
    · by_cases hrd : isRedactedBlock b = true
      · cases cap <;>
          simp_all [thinkingFilter, List.countP_cons, ht, hrd, Nat.add_comm, Nat.add_left_comm]
        all_goals omega
      · cases cap <;>
          simp_all [thinkingFilter, List.countP_cons, ht, hrd]

/-- C4: per content-block list, the thinking policy counts every
`thinking` and every `redacted_thinking` dict block; when
thinking-capable it keeps the list unchanged with no drops, otherwise it
removes exactly those blocks in place (order of the rest preserved) and
the drop count is their total; every other block, including unknown
types, passes through; and a message whose content is a scalar string is
never affected, contributing no counts.  On a one-message payload the
policy returns exactly these counters in its result record. -/
theorem C4_thinking_policy (cap : Bool) (content : List JVal) (kvs : List (Str × JVal)) (s : Str) :
    ((thinkingFilter cap content).2.1 = content.countP isThinkingBlock) ∧
    ((thinkingFilter cap content).2.2.1 = content.countP isRedactedBlock) ∧
    (cap = true → (thinkingFilter cap content).1 = content ∧
      (thinkingFilter cap content).2.2.2 = 0) ∧
    (cap = false → (thinkingFilter cap content).1 =
        content.filter (fun b => !(isThinkingBlock b || isRedactedBlock b)) ∧
      (thinkingFilter cap content).2.2.2 =
        content.countP isThinkingBlock + content.countP isRedactedBlock) ∧
    (dGet kvs "content".data = some (.str s) →
      thinkingMessage cap (.obj kvs) = (.obj kvs, 0, 0, 0)) ∧
    (dGet kvs "content".data = some (.arr content) →
      apply_thinking_policy [("messages".data, .arr [.obj kvs])] cap =
        ([("messages".data,
           .arr [.obj (dSet kvs "content".data (.arr (thinkingFilter cap content).1))])],
         ⟨(thinkingFilter cap content).2.1, (thinkingFilter cap content).2.2.1,
          (thinkingFilter cap content).2.2.2, cap⟩)) := by
  obtain ⟨h1, h2, h3, h4⟩ := thinkingFilter_spec cap content
  refine ⟨h1, h2, ?_, ?_, ?_, ?_⟩
  · intro hc
    subst hc
    simp only [if_true] at h3 h4
    exact ⟨h3, h4⟩
  · intro hc
    subst hc
    simp only [Bool.false_eq_true, if_false] at h3 h4
    exact ⟨h3, h4⟩
  · intro hs
    simp only [thinkingMessage, hs]
  · intro ha
    unfold apply_thinking_policy
    rw [dGet_cons, if_pos rfl]
    simp only [List.map_cons, List.map_nil]
    simp only [thinkingMessage, ha]
    simp [dSet, List.sum_cons, List.sum_nil]

theorem C4_thinking_policy_witness :
    (thinkingFilter false [exThinking, exText, exRedacted]).1 = [exText] ∧
    (thinkingFilter false [exThinking, exText, exRedacted]).2.2.2 = 2 ∧
    (thinkingFilter true [exThinking, exText, exRedacted]).1 = [exThinking, exText, exRedacted] ∧
    (thinkingFilter true [exThinking, exText, exRedacted]).2.2.2 = 0 ∧
    thinkingMessage true (.obj [("role".data, .str "user".data),
      ("content".data, .str "plain".data)]) =
      (.obj [("role".data, .str "user".data), ("content".data, .str "plain".data)], 0, 0, 0) := by
  have hf := C4_thinking_policy false [exThinking, exText, exRedacted] [] []
  have ht := C4_thinking_policy true [exThinking, exText, exRedacted]
    [("role".data, .str "user".data), ("content".data, .str "plain".data)] "plain".data
  refine ⟨?_, ?_, ?_, ?_, ?_⟩
  · rw [(hf.2.2.2.1 rfl).1]
    decide
  · rw [(hf.2.2.2.1 rfl).2]
    decide
  · exact (ht.2.2.1 rfl).1
  · exact (ht.2.2.1 rfl).2
  · exact ht.2.2.2.2.1 rfl

/-! ## Flatten lemmas and claim C9 -/

theorem dGet_foldl_dPop (ks : List Str) (d : List (Str × JVal)) (k : Str) (hk : k ∉ ks) :
    dGet (ks.foldl dPop d) k = dGet d k := by
  induction ks generalizing d with
  | nil => rfl
  | cons k2 rest ih =>
    simp only [List.mem_cons, not_or] at hk
    simp only [List.foldl_cons]
    rw [ih _ hk.2, dGet_dPop, if_neg hk.1]

theorem flattenParts_eq_filterMap (blocks : List JVal) :
    flattenParts blocks = blocks.filterMap strippedTextOf := by
  induction blocks with
  | nil => rfl
  | cons b rest ih =>
    cases b with
    | obj kvs =>
      simp only [flattenParts, strippedTextOf, List.filterMap_cons]
      by_cases ht : dGet kvs "type".data = some (.str "text".data)
      · rw [if_pos ht, if_pos ht]
        by_cases he : (pyStrip (getStrCoerced kvs "text".data)).isEmpty = true
        · rw [if_pos he]
          simp only [he, if_true]
          exact ih
        · rw [if_neg he]
          simp only [he, Bool.false_eq_true, if_false]
          rw [ih]
      · rw [if_neg ht, if_neg ht]
        exact ih
    | null => simpa [flattenParts, strippedTextOf, List.filterMap_cons] using ih
    | bool x => simpa [flattenParts, strippedTextOf, List.filterMap_cons] using ih
    | num x => simpa [flattenParts, strippedTextOf, List.filterMap_cons] using ih
    | str x => simpa [flattenParts, strippedTextOf, List.filterMap_cons] using ih
    | arr x => simpa [flattenParts, strippedTextOf, List.filterMap_cons] using ih

/-- C9 counterexample: a text block whose text carries surrounding
whitespace is stripped before joining, and a block whose text strips to
empty is omitted entirely, so the flattened string is not the plain
`"\n\n"`-join of the text fields the claim describes. -/
theorem C9_counterexample :
    flatten_content (.arr [.obj [("type".data, .str "text".data),
      ("text".data, .str " hi ".data)]]) = "hi".data ∧
    "hi".data ≠ " hi ".data ∧
    flatten_content (.arr [.obj [("type".data, .str "text".data), ("text".data, .str "".data)],
      .obj [("type".data, .str "text".data), ("text".data, .str "a".data)]]) = "a".data ∧
    "a".data ≠ ("".data ++ "\n\n".data ++ "a".data) := by
  refine ⟨?_, ?_, ?_, ?_⟩ <;> decide

/-- C9 (amended): for the flattened/legacy target, list content becomes
the `"\n\n"`-join of the stripped text fields of its `text`-type blocks,
omitting blocks whose text strips to empty and discarding all other
block types; content that is neither a string nor a list becomes the
empty string; and `to_openai_compat` applies exactly this flattening to
every message whose content is a list. -/
theorem C9_flatten_messages (blocks : List JVal) (payload : List (Str × JVal)) (m : Str)
    (msgs : List JVal) :
    (flatten_content (.arr blocks) =
       List.intercalate "\n\n".data (blocks.filterMap strippedTextOf)) ∧
    flatten_content .null = [] ∧ (∀ b, flatten_content (.bool b) = []) ∧
    (∀ n, flatten_content (.num n) = []) ∧ (∀ o, flatten_content (.obj o) = []) ∧
    (dGet payload "messages".data = some (.arr msgs) →
      ∀ (i : Nat) (kvs : List (Str × JVal)) (bl : List JVal),
        msgs[i]? = some (.obj kvs) → dGet kvs "content".data = some (.arr bl) →
        (to_openai_compat payload m).messages[i]? =
          some ⟨dGet kvs "role".data, flatten_content (.arr bl)⟩) := by
  refine ⟨?_, rfl, fun _ => rfl, fun _ => rfl, fun _ => rfl, ?_⟩
  · simp only [flatten_content, flattenParts_eq_filterMap]
  · intro hm i kvs bl hi hc
    have hmsg : dGet (DROP_FIELDS.foldl dPop payload) "messages".data =
        some (.arr msgs) := by
      rw [dGet_foldl_dPop]
      · exact hm
      · decide
    simp only [to_openai_compat, hmsg]
    rw [List.getElem?_map, hi]
    simp [hc]

theorem C9_flatten_messages_witness :
    flatten_content (.arr [exText, .num 3, exThinking,
      .obj [("type".data, .str "text".data), ("text".data, .str " world ".data)]]) =
      "hello\n\nworld".data ∧
    flatten_content (.bool true) = [] ∧
    (to_openai_compat [("model".data, .str "m".data),
        ("messages".data, .arr [.obj [("role".data, .str "user".data),
          ("content".data, .arr [exText])]])] "r".data).messages[0]? =
      some ⟨some (.str "user".data), "hello".data⟩ := by
  have h := C9_flatten_messages [exText, .num 3, exThinking,
    .obj [("type".data, .str "text".data), ("text".data, .str " world ".data)]]
    [("model".data, .str "m".data),
     ("messages".data, .arr [.obj [("role".data, .str "user".data),
       ("content".data, .arr [exText])]])] "r".data
    [.obj [("role".data, .str "user".data), ("content".data, .arr [exText])]]
  refine ⟨?_, h.2.2.1 true, ?_⟩
  · rw [h.1]
    decide
  · have h2 := h.2.2.2.2.2 rfl 0
      [("role".data, .str "user".data), ("content".data, .arr [exText])] [exText] rfl rfl
    rw [h2]
    decide

/-! ## Routing lemmas and claim C5 -/

theorem sGet_aliasToModelOf (pa ua : List (Str × JVal)) (a : Str) :
    sGet (aliasToModelOf pa ua) a =
      if dHasKey pa a ∧ dHasKey ua a then some (pyStrip (pyStr ((dGet ua a).getD .null)))
      else none := by
  induction pa with
  | nil => simp [aliasToModelOf, sGet, dHasKey]
  | cons p rest ih =>
    simp only [aliasToModelOf, List.filterMap_cons] at *
    by_cases hu : dHasKey ua p.1 = true
    · simp only [hu, if_true]
      by_cases hp : p.1 = a
      · subst hp
        unfold sGet
        rw [List.find?_cons_of_pos _ (by simp)]
        rw [if_pos ⟨by simp [dHasKey], hu⟩]
        rfl
      · simp only [sGet] at ih ⊢
        rw [List.find?_cons_of_neg _ (by simpa using hp), ih]
        have hk : dHasKey (p :: rest) a = dHasKey rest a := by
          simp [dHasKey, List.any_cons, hp]
        rw [hk]
    · simp only [hu, Bool.false_eq_true, if_false]
      rw [ih]
      by_cases hp : p.1 = a
      · subst hp
        have hu2 : dHasKey ua p.1 = false := by simpa using hu
        rw [if_neg (by simp [hu2]), if_neg (by simp [hu2])]
      · have hk : dHasKey (p :: rest) a = dHasKey rest a := by
          simp [dHasKey, List.any_cons, hp]
        rw [hk]

/-- C5: in the merged routing configuration, `alias_to_model` maps an
alias to the (string-coerced, stripped) user-file value exactly when the
alias appears in both the base file's aliases and the user file's
aliases; an alias present only in the user file is never mapped; and
`resolve_model` returns the mapping when one exists, otherwise the
requested string unchanged. -/
theorem C5_alias_merge (proxy_data user_data pa ua : List (Str × JVal)) (a requested : Str)
    (hpa : dGet proxy_data "aliases".data = some (.obj pa))
    (hua : dGet user_data "aliases".data = some (.obj ua)) :
    (sGet (load_routing_config proxy_data user_data).alias_to_model a =
      if dHasKey pa a ∧ dHasKey ua a then some (pyStrip (pyStr ((dGet ua a).getD .null)))
      else none) ∧
    (dHasKey pa a = false →
      sGet (load_routing_config proxy_data user_data).alias_to_model a = none) ∧
    (resolve_model requested (load_routing_config proxy_data user_data) =
      (sGet (load_routing_config proxy_data user_data).alias_to_model requested).getD
        requested) := by
  have hfield : (load_routing_config proxy_data user_data).alias_to_model =
      aliasToModelOf pa ua := by
    simp [load_routing_config, hpa, hua, yamlDict]
  refine ⟨?_, ?_, rfl⟩
  · rw [hfield, sGet_aliasToModelOf]
  · intro hno
    rw [hfield, sGet_aliasToModelOf, if_neg (by simp [hno])]

theorem C5_alias_merge_witness :
    resolve_model "sonnet".data (load_routing_config exProxyData exUserData) = "modelX".data ∧
    resolve_model "extra".data (load_routing_config exProxyData exUserData) = "extra".data ∧
    resolve_model "unknown".data (load_routing_config exProxyData exUserData) =
      "unknown".data := by
  refine ⟨?_, ?_, ?_⟩
  · have h := C5_alias_merge exProxyData exUserData
      [("sonnet".data, .obj [("promise".data, .obj [("tools".data, .bool true)])])]
      [("sonnet".data, .str "modelX".data), ("extra".data, .str "y".data)]
      "sonnet".data "sonnet".data rfl rfl
    rw [h.2.2, h.1]
    decide
  · have h := C5_alias_merge exProxyData exUserData
      [("sonnet".data, .obj [("promise".data, .obj [("tools".data, .bool true)])])]
      [("sonnet".data, .str "modelX".data), ("extra".data, .str "y".data)]
      "extra".data "extra".data rfl rfl
    rw [h.2.2, h.2.1 (by decide)]
    rfl
  · have h := C5_alias_merge exProxyData exUserData
      [("sonnet".data, .obj [("promise".data, .obj [("tools".data, .bool true)])])]
      [("sonnet".data, .str "modelX".data), ("extra".data, .str "y".data)]
      "unknown".data "unknown".data rfl rfl
    rw [h.2.2, h.2.1 (by decide)]
    rfl

/-! ## Capability claim C8 -/

/-- C8: capability detection answers `"structured"` immediately from the
snapshot's static allow-list, touching neither the backend nor the
cache; on a cache miss, a raised introspection call (or a malformed
non-dict response, which raises inside the `try`) yields `"none"` with
the cache left unchanged — the failure is never cached; and a successful
introspection yields `"structured"` exactly when the normalized
capability list contains `"tools"`, which is cached and returned. -/
theorem C8_capability (model : Str) (routing : RoutingConfig) (cache : CapabilityCache)
    (backend : Except Unit JVal) (data : List (Str × JVal)) (e : Unit) (s : Str) :
    (model ∈ routing.tool_calling_capable_models →
      get_tool_capability model routing cache backend = ("structured".data, cache, false)) ∧
    (model ∉ routing.tool_calling_capable_models → sGet cache model = none →
      get_tool_capability model routing cache (.error e) = ("none".data, cache, true)) ∧
    (model ∉ routing.tool_calling_capable_models → sGet cache model = none →
      get_tool_capability model routing cache (.ok (.str s)) = ("none".data, cache, true)) ∧
    (model ∉ routing.tool_calling_capable_models → sGet cache model = none →
      get_tool_capability model routing cache (.ok (.obj data)) =
        ((if "tools".data ∈
            normalize_capabilities ((dGet data "capabilities".data).getD .null)
          then "structured".data else "none".data),
         cache ++ [(model,
           if "tools".data ∈
              normalize_capabilities ((dGet data "capabilities".data).getD .null)
           then "structured".data else "none".data)], true)) := by
  refine ⟨?_, ?_, ?_, ?_⟩
  · intro hin
    unfold get_tool_capability
    rw [if_pos hin]
  · intro hout hmiss
    unfold get_tool_capability
    rw [if_neg hout, hmiss]
  · intro hout hmiss
    unfold get_tool_capability
    rw [if_neg hout, hmiss]
  · intro hout hmiss
    unfold get_tool_capability
    rw [if_neg hout, hmiss]

theorem C8_capability_witness :
    get_tool_capability "m1".data exRouting [] (.error ()) = ("structured".data, [], false) ∧
    get_tool_capability "m2".data exRouting [] (.error ()) = ("none".data, [], true) ∧
    get_tool_capability "m2".data exRouting []
        (.ok (.obj [("capabilities".data, .arr [.str " Tools ".data])])) =
      ("structured".data, [("m2".data, "structured".data)], true) := by
  have h1 := (C8_capability "m1".data exRouting [] (.error ()) [] () []).1 (by decide)
  have h2 := (C8_capability "m2".data exRouting [] (.error ()) [] () []).2.1 (by decide) rfl
  have h3 := (C8_capability "m2".data exRouting []
    (.ok (.obj [("capabilities".data, .arr [.str " Tools ".data])]))
    [("capabilities".data, .arr [.str " Tools ".data])] () []).2.2.2 (by decide) rfl
  exact ⟨h1, h2, by rw [h3]; decide⟩

/-! ## Stream translation lemmas and claim C6 -/

theorem pySplitNL_ne_nil (bs : List Nat) : pySplitNL bs ≠ [] := by
  cases bs with
  | nil => simp [pySplitNL]
  | cons b rest =>
    unfold pySplitNL
    by_cases hb : b = 10
    · simp [hb]
    · simp only [hb, if_false]
      cases h : pySplitNL rest with
      | nil => simp
      | cons seg segs => simp

theorem pySplitNL_noNL (p : List Nat) (h : 10 ∉ p) : pySplitNL p = [p] := by
  induction p with
  | nil => rfl
  | cons b rest ih =>
    simp only [List.mem_cons, not_or] at h
    unfold pySplitNL
    rw [if_neg (fun hh => h.1 hh.symm), ih h.2]

theorem pySplitNL_append (p r : List Nat) (h : 10 ∉ p) :
    pySplitNL (p ++ 10 :: r) = p :: pySplitNL r := by
  induction p with
  | nil =>
    simp only [List.nil_append]
    conv_lhs => rw [pySplitNL]
    rw [if_pos rfl]
  | cons b rest ih =>
    simp only [List.mem_cons, not_or] at h
    simp only [List.cons_append]
    conv_lhs => rw [pySplitNL]
    rw [if_neg (fun hh => h.1 hh.symm), ih h.2]

theorem getLastD_congr (x : α) (xs : List α) (d₁ d₂ : α) :
    (x :: xs).getLastD d₁ = (x :: xs).getLastD d₂ := by
  rw [List.getLastD_cons, List.getLastD_cons]

theorem lastSeg_noNL (bs : List Nat) : 10 ∉ (pySplitNL bs).getLastD [] := by
  induction bs with
  | nil => simp [pySplitNL]
  | cons b rest ih =>
    rw [pySplitNL]
    by_cases hb : b = 10
    · rw [if_pos hb]
      cases hsp : pySplitNL rest with
      | nil => exact absurd hsp (pySplitNL_ne_nil rest)
      | cons seg segs =>
        rw [List.getLastD_cons]
        rw [hsp] at ih
        exact ih
    · rw [if_neg hb]
      cases hsp : pySplitNL rest with
      | nil => exact absurd hsp (pySplitNL_ne_nil rest)
      | cons seg segs =>
        rw [hsp] at ih
        cases segs with
        | nil =>
          simp only [List.getLastD_cons] at ih ⊢
          simp only [List.getLastD] at ih ⊢
          simp only [List.mem_cons, not_or]
          exact ⟨fun hh => hb hh.symm, ih⟩
        | cons s2 ss =>
          simp only [List.getLastD_cons] at ih ⊢
          exact ih

theorem getLastD_append (A : List α) (x : α) (xs : List α) :
    ∀ d : α, (A ++ x :: xs).getLastD d = xs.getLastD x := by
  induction A with
  | nil => intro d; rw [List.nil_append, List.getLastD_cons]
  | cons a A ih => intro d; rw [List.cons_append, List.getLastD_cons, ih]

theorem pySplitNL_split (q m : List Nat) :
    pySplitNL (q ++ m) =
      (pySplitNL q).dropLast ++ pySplitNL ((pySplitNL q).getLastD [] ++ m) := by
  induction q with
  | nil => rfl
  | cons b q ih =>
    cases hsp : pySplitNL q with
    | nil => exact absurd hsp (pySplitNL_ne_nil q)
    | cons seg segs =>
      simp only [List.cons_append]
      by_cases hb : b = 10
      · rw [pySplitNL, if_pos hb, ih, hsp]
        rw [pySplitNL, if_pos hb, hsp]
        rw [List.dropLast_cons₂, List.getLastD_cons, List.getLastD_cons,
          List.getLastD_cons, List.cons_append]
      · rw [pySplitNL, if_neg hb, ih, hsp]
        rw [pySplitNL, if_neg hb, hsp]
        cases segs with
        | nil =>
          rw [List.getLastD_cons, List.getLastD_nil]
          dsimp only [List.dropLast, List.nil_append]
          rw [List.getLastD_cons, List.getLastD_nil]
          cases hsm : pySplitNL (seg ++ m) with
          | nil => exact absurd hsm (pySplitNL_ne_nil _)
          | cons s2 ss2 =>
            rw [List.cons_append, pySplitNL, if_neg hb, hsm]
        | cons s2 ss =>
          rw [List.dropLast_cons₂, List.dropLast_cons₂, List.getLastD_cons,
            List.getLastD_cons, List.getLastD_cons, List.getLastD_cons]
          rfl

theorem getLastD_append_ne (A B : List α) (h : B ≠ []) (d : α) :
    (A ++ B).getLastD d = B.getLastD d := by
  cases B with
  | nil => exact absurd rfl h
  | cons x xs => rw [getLastD_append, List.getLastD_cons]

theorem foldl_feedChunk (tools : Option (List JVal)) (chunks : List (List Nat)) :
    ∀ (p : List Nat) (out : List Str), 10 ∉ p →
    chunks.foldl (feedChunk tools) (p, out) =
      ((pySplitNL (p ++ chunks.flatten)).getLastD [],
       out ++ (((pySplitNL (p ++ chunks.flatten)).dropLast).map
         (processStreamLine tools)).flatten) := by
  induction chunks with
  | nil =>
    intro p out h
    rw [List.foldl_nil, List.flatten_nil, List.append_nil, pySplitNL_noNL p h]
    simp
  | cons c cs ih =>
    intro p out h
    rw [List.foldl_cons]
    have hF : feedChunk tools (p, out) c =
        ((pySplitNL (p ++ c)).getLastD [],
         out ++ ((pySplitNL (p ++ c)).dropLast.map (processStreamLine tools)).flatten) := rfl
    rw [hF, ih _ _ (lastSeg_noNL (p ++ c))]
    rw [List.flatten_cons, ← List.append_assoc, pySplitNL_split (p ++ c) cs.flatten]
    cases hsm : pySplitNL ((pySplitNL (p ++ c)).getLastD [] ++ cs.flatten) with
    | nil => exact absurd hsm (pySplitNL_ne_nil _)
    | cons s2 ss2 =>
      rw [getLastD_append_ne _ _ (List.cons_ne_nil _ _), List.getLastD_cons,
        List.dropLast_append_of_ne_nil _ (List.cons_ne_nil _ _),
        List.map_append, List.flatten_append, List.append_assoc]

theorem stream_eq_oneShot (tools : Option (List JVal)) (chunks : List (List Nat)) :
    stream_from_anthropic_compat tools chunks = streamOneShot tools chunks.flatten := by
  unfold stream_from_anthropic_compat streamOneShot
  rw [foldl_feedChunk tools chunks [] [] (by simp)]
  simp

theorem pyStrip_eq_self_facts (s : Str) (hs : pyStrip s = s) :
    s.dropWhile isPySpace = s ∧ s.reverse.dropWhile isPySpace = s.reverse := by
  have hs' : ((s.dropWhile isPySpace).reverse.dropWhile isPySpace).reverse = s := hs
  have h1 : (s.dropWhile isPySpace).length ≤ s.length :=
    (List.dropWhile_suffix isPySpace).sublist.length_le
  have h2 : ((s.dropWhile isPySpace).reverse.dropWhile isPySpace).length
      ≤ (s.dropWhile isPySpace).reverse.length :=
    (List.dropWhile_suffix isPySpace).sublist.length_le
  rw [List.length_reverse] at h2
  have hlen := congrArg List.length hs'
  rw [List.length_reverse] at hlen
  have hu : s.dropWhile isPySpace = s :=
    (List.dropWhile_suffix isPySpace).eq_of_length (by omega)
  refine ⟨hu, ?_⟩
  rw [hu] at hs'
  have := congrArg List.reverse hs'
  rwa [List.reverse_reverse] at this

theorem head_not_space (c : Char) (t : Str)
    (h : (c :: t).dropWhile isPySpace = c :: t) : isPySpace c = false := by
  by_cases hc : isPySpace c = true
  · rw [List.dropWhile_cons, if_pos hc] at h
    have hle : (t.dropWhile isPySpace).length ≤ t.length :=
      (List.dropWhile_suffix isPySpace).sublist.length_le
    have := congrArg List.length h
    simp at this
    omega
  · simpa using hc

theorem pyStrip_data_prefix (s : Str) (hs : pyStrip s = s) (hne : s ≠ []) :
    pyStrip ("data: ".data ++ s) = "data: ".data ++ s := by
  obtain ⟨h1, h2⟩ := pyStrip_eq_self_facts s hs
  have hstart : ("data: ".data ++ s).dropWhile isPySpace = "data: ".data ++ s := by
    show List.dropWhile isPySpace ('d' :: ("ata: ".data ++ s)) = 'd' :: ("ata: ".data ++ s)
    rw [List.dropWhile_cons, if_neg (by decide)]
  have hrev : ("data: ".data ++ s).reverse.dropWhile isPySpace
      = ("data: ".data ++ s).reverse := by
    rw [List.reverse_append]
    cases hsr : s.reverse with
    | nil => exact absurd (by simpa using congrArg List.reverse hsr) hne
    | cons c t =>
      have hc : isPySpace c = false := head_not_space c t (hsr ▸ h2)
      rw [List.cons_append, List.dropWhile_cons, if_neg (by simp [hc])]
  show ((("data: ".data ++ s).dropWhile isPySpace).reverse.dropWhile isPySpace).reverse
      = "data: ".data ++ s
  rw [hstart, hrev, List.reverse_reverse]

theorem handleLine_data (tools : Option (List JVal)) (s : Str) (e : JVal)
    (hs : pyStrip s = s) (hne : s ≠ []) (hdone : s ≠ "[DONE]".data)
    (hj : jsonLoads s = some e) :
    handleLineStr tools ("data: ".data ++ s)
      = ["data: ".data ++ jDumpCompact (repairStreamEvent tools e) ++ "\n\n".data] := by
  have hps := pyStrip_data_prefix s hs hne
  have h1 : ("data: ".data ++ s).isEmpty = false := rfl
  have h2 : pyStartsWith ("data: ".data ++ s) "data: ".data = true := rfl
  have h3 : ("data: ".data ++ s).drop 6 = s := rfl
  have h5 : s.isEmpty = false := by
    cases s with
    | nil => exact absurd rfl hne
    | cons a t => rfl
  simp only [handleLineStr]
  rw [hps]
  rw [if_neg (by rw [h1]; exact Bool.false_ne_true)]
  rw [if_pos h2]
  rw [h3, hs]
  rw [if_neg hdone]
  rw [if_neg (by rw [h5]; exact Bool.false_ne_true)]
  simp only [emitEvent, hj]

/-- C6: the stream translator is invariant under re-chunking: the frames it
emits are a function of the concatenated byte stream alone (every complete
line is processed exactly once, in order, wherever the chunk boundaries
fall), and each complete well-formed `data: {json}` line produces exactly
one re-emitted event frame. -/
theorem C6_stream_rechunk (request_tools : Option (List JVal)) :
    (∀ chunks : List (List Nat),
      stream_from_anthropic_compat request_tools chunks
        = streamOneShot request_tools chunks.flatten) ∧
    (∀ chunks₁ chunks₂ : List (List Nat), chunks₁.flatten = chunks₂.flatten →
      stream_from_anthropic_compat request_tools chunks₁
        = stream_from_anthropic_compat request_tools chunks₂) ∧
    (∀ (s : Str) (e : JVal), pyStrip s = s → s ≠ [] → s ≠ "[DONE]".data →
      jsonLoads s = some e →
      handleLineStr request_tools ("data: ".data ++ s)
        = ["data: ".data ++ jDumpCompact (repairStreamEvent request_tools e)
            ++ "\n\n".data]) := by
  refine ⟨fun chunks => stream_eq_oneShot request_tools chunks,
    fun c₁ c₂ h => ?_, fun s e hs hne hdone hj => ?_⟩
  · rw [stream_eq_oneShot, stream_eq_oneShot, h]
  · exact handleLine_data request_tools s e hs hne hdone hj

theorem C6_stream_rechunk_witness :
    (stream_from_anthropic_compat (some [])
        [utf8 "data: \x7b\"typ".data, utf8 "e\":\"ping\"\x7d\n\n".data]
      = streamOneShot (some [])
          ([utf8 "data: \x7b\"typ".data, utf8 "e\":\"ping\"\x7d\n\n".data] : List (List Nat)).flatten) ∧
    handleLineStr (some []) ("data: ".data ++ "\x7b\"type\": \"ping\"\x7d".data)
      = ["data: ".data ++ jDumpCompact (repairStreamEvent (some [])
          (.obj [("type".data, .str "ping".data)])) ++ "\n\n".data] :=
  ⟨(C6_stream_rechunk (some [])).1 _,
   (C6_stream_rechunk (some [])).2.2 "\x7b\"type\": \"ping\"\x7d".data
     (.obj [("type".data, .str "ping".data)])
     (by decide) (by decide) (by decide) (by decide)⟩

/-! ## The `use_tools` marker scan (claim C7) -/

theorem matchesUseTools_length {s : Str} (h : matchesUseTools s = true) : 9 ≤ s.length := by
  unfold matchesUseTools at h
  rw [Bool.and_eq_true, decide_eq_true_eq] at h
  have hl := congrArg List.length h.1
  simp only [pyLower, List.length_map, List.length_take] at hl
  have : useToolsTarget.length = 9 := rfl
  omega

theorem subnUseToolsGo_fuel (f₁ : Nat) : ∀ (f₂ : Nat) (pw : Bool) (s : Str),
    s.length ≤ f₁ → s.length ≤ f₂ →
    subnUseToolsGo f₁ pw s = subnUseToolsGo f₂ pw s := by
  induction f₁ using Nat.strong_induction_on with
  | _ f₁ ih =>
    intro f₂ pw s h1 h2
    match s, f₁, f₂ with
    | [], f₁, f₂ => cases f₁ <;> cases f₂ <;> rfl
    | c :: rest, 0, _ => simp at h1
    | c :: rest, _, 0 => simp at h2
    | c :: rest, a + 1, b + 1 =>
      rw [subnUseToolsGo, subnUseToolsGo]
      by_cases hm : ¬ pw ∧ matchesUseTools (c :: rest) = true
      · rw [if_pos hm, if_pos hm]
        have h9 := matchesUseTools_length hm.2
        have hlen : ((c :: rest).drop 9).length ≤ a := by
          simp only [List.length_drop, List.length_cons] at *
          omega
        have hlen2 : ((c :: rest).drop 9).length ≤ b := by
          simp only [List.length_drop, List.length_cons] at *
          omega
        rw [ih a (by omega) b true ((c :: rest).drop 9) hlen hlen2]
      · rw [if_neg hm, if_neg hm]
        have hlen : rest.length ≤ a := by
          simp only [List.length_cons] at h1
          omega
        have hlen2 : rest.length ≤ b := by
          simp only [List.length_cons] at h2
          omega
        rw [ih a (by omega) b (isWordChar c) rest hlen hlen2]

theorem subnUseTools_nil (pw : Bool) : subnUseTools pw [] = ([], 0) := rfl

theorem subnUseTools_match (pw : Bool) (c : Char) (rest : Str)
    (hpw : pw = false) (hm : matchesUseTools (c :: rest) = true) :
    subnUseTools pw (c :: rest) =
      ((subnUseTools true ((c :: rest).drop 9)).1,
       (subnUseTools true ((c :: rest).drop 9)).2 + 1) := by
  subst hpw
  unfold subnUseTools
  rw [List.length_cons, subnUseToolsGo, if_pos ⟨by simp, hm⟩]
  have h9 := matchesUseTools_length hm
  rw [subnUseToolsGo_fuel rest.length ((c :: rest).drop 9).length true ((c :: rest).drop 9)
    (by simp only [List.length_drop, List.length_cons]; omega) (le_refl _)]

theorem subnUseTools_nomatch (pw : Bool) (c : Char) (rest : Str)
    (h : ¬ (pw = false ∧ matchesUseTools (c :: rest) = true)) :
    subnUseTools pw (c :: rest) =
      (c :: (subnUseTools (isWordChar c) rest).1, (subnUseTools (isWordChar c) rest).2) := by
  unfold subnUseTools
  rw [List.length_cons, subnUseToolsGo, if_neg (by
    intro hc
    exact h ⟨by cases pw with | false => rfl | true => exact absurd rfl hc.1, hc.2⟩)]

theorem isWordChar_toLower (x : Char) (h : isWordChar (Char.toLower x) = true) :
    isWordChar x = true := by
  rw [Char.toLower] at h
  by_cases hr : x.toNat ≥ 65 ∧ x.toNat ≤ 90
  · rw [isWordChar, decide_eq_true_eq]
    refine Or.inr (Or.inl ⟨?_, ?_⟩)
    · show (65 : Nat) ≤ x.toNat
      exact hr.1
    · show x.toNat ≤ (90 : Nat)
      exact hr.2
  · rw [if_neg hr] at h
    exact h

theorem matchesUseTools_head (c : Char) (t : Str) (h : matchesUseTools (c :: t) = true) :
    isWordChar c = true := by
  rw [matchesUseTools, Bool.and_eq_true, decide_eq_true_eq] at h
  have h1 := h.1
  rw [show (c :: t).take 9 = c :: t.take 8 from rfl, pyLower, List.map_cons,
    show useToolsTarget = 'u' :: "se_tools".data from rfl, List.cons.injEq] at h1
  apply isWordChar_toLower
  rw [h1.1]
  decide

theorem res_true_word_prefix : ∀ (k : Nat) (t : Str),
    (∀ x ∈ ((subnUseTools true t).1).take k, isWordChar x = true) →
    (subnUseTools true t).1 = t.take k ++ (subnUseTools true (t.drop k)).1 ∧
    t.take k = ((subnUseTools true t).1).take k := by
  intro k
  induction k with
  | zero =>
    intro t _
    simp
  | succ k ih =>
    intro t hcond
    cases t with
    | nil => exact ⟨rfl, rfl⟩
    | cons x xs =>
      have hx := subnUseTools_nomatch true x xs (fun hc => absurd hc.1 (by simp))
      have hx1 : (subnUseTools true (x :: xs)).1 = x :: (subnUseTools (isWordChar x) xs).1 := by
        rw [hx]
      have hxw : isWordChar x = true := by
        apply hcond x
        rw [hx1, List.take_succ_cons]
        exact List.mem_cons_self x _
      rw [hxw] at hx1
      have hcond' : ∀ y ∈ ((subnUseTools true xs).1).take k, isWordChar y = true := by
        intro y hy
        apply hcond y
        rw [hx1, List.take_succ_cons]
        exact List.mem_cons_of_mem x hy
      obtain ⟨ih1, ih2⟩ := ih xs hcond'
      refine ⟨?_, ?_⟩
      · rw [hx1, ih1, List.take_succ_cons, List.drop_succ_cons, List.cons_append]
      · rw [hx1, List.take_succ_cons, List.take_succ_cons, ih2]

theorem matches_res_implies (c : Char) (rest : Str)
    (h : matchesUseTools (c :: (subnUseTools (isWordChar c) rest).1) = true) :
    matchesUseTools (c :: rest) = true := by
  have hcw : isWordChar c = true := matchesUseTools_head _ _ h
  rw [hcw] at h
  rw [matchesUseTools, Bool.and_eq_true, decide_eq_true_eq] at h
  obtain ⟨h1, h2⟩ := h
  rw [show (c :: (subnUseTools true rest).1).take 9
        = c :: ((subnUseTools true rest).1).take 8 from rfl,
    pyLower, List.map_cons,
    show useToolsTarget = 'u' :: "se_tools".data from rfl, List.cons.injEq] at h1
  have hlen8 : (((subnUseTools true rest).1).take 8).length = 8 := by
    have hl := congrArg List.length h1.2
    simp only [pyLower, List.length_map] at hl
    rw [hl]
    rfl
  have hword : ∀ x ∈ ((subnUseTools true rest).1).take 8, isWordChar x = true := by
    intro x hx
    have hmem : Char.toLower x ∈ pyLower (((subnUseTools true rest).1).take 8) :=
      List.mem_map_of_mem _ hx
    simp only [pyLower] at hmem
    rw [h1.2] at hmem
    have hall : ∀ y ∈ ("se_tools".data : Str), isWordChar y = true := by decide
    exact isWordChar_toLower x (hall _ hmem)
  obtain ⟨hA1, hA2⟩ := res_true_word_prefix 8 rest hword
  have htl : (rest.take 8).length = 8 := by rw [hA2]; exact hlen8
  have hd8 := List.drop_left (rest.take 8) ((subnUseTools true (rest.drop 8)).1)
  rw [htl] at hd8
  have hdrop : ((subnUseTools true rest).1).drop 8 = (subnUseTools true (rest.drop 8)).1 := by
    rw [hA1]
    exact hd8
  rw [matchesUseTools, Bool.and_eq_true, decide_eq_true_eq]
  refine ⟨?_, ?_⟩
  · rw [show (c :: rest).take 9 = c :: rest.take 8 from rfl, pyLower, List.map_cons, hA2,
      show useToolsTarget = 'u' :: "se_tools".data from rfl]
    rw [h1.1]
    have h12 := h1.2
    simp only [pyLower] at h12 ⊢
    rw [h12]
  · rw [show (c :: rest).drop 9 = rest.drop 8 from rfl]
    have h2' : (match ((subnUseTools true rest).1).drop 8 with
        | [] => true | d :: _ => ! isWordChar d) = true := h2
    rw [hdrop] at h2'
    cases hrd : rest.drop 8 with
    | nil => rfl
    | cons d ds =>
      rw [hrd] at h2'
      have hres := subnUseTools_nomatch true d ds (fun hc => absurd hc.1 (by simp))
      have hres1 : (subnUseTools true (d :: ds)).1
          = d :: (subnUseTools (isWordChar d) ds).1 := by rw [hres]
      rw [hres1] at h2'
      exact h2'

theorem rescan_zero_go : ∀ (n : Nat) (s : Str), s.length ≤ n → ∀ (pw₁ pw₂ : Bool),
    (pw₂ = true → pw₁ = true) →
    (subnUseTools pw₁ ((subnUseTools pw₂ s).1)).2 = 0 := by
  intro n
  induction n with
  | zero =>
    intro s h pw₁ pw₂ _
    have hnil : s = [] := List.eq_nil_of_length_eq_zero (by omega)
    subst hnil
    rfl
  | succ n ih =>
    intro s hlen pw₁ pw₂ hcond
    cases s with
    | nil => rfl
    | cons c rest =>
      by_cases hm : pw₂ = false ∧ matchesUseTools (c :: rest) = true
      · have hmt := subnUseTools_match pw₂ c rest hm.1 hm.2
        have hmt1 : (subnUseTools pw₂ (c :: rest)).1
            = (subnUseTools true ((c :: rest).drop 9)).1 := by rw [hmt]
        rw [hmt1]
        have h9 := matchesUseTools_length hm.2
        have hb : (match (c :: rest).drop 9 with
            | [] => true | d :: _ => ! isWordChar d) = true := by
          have hh := hm.2
          rw [matchesUseTools, Bool.and_eq_true] at hh
          exact hh.2
        cases hrd : (c :: rest).drop 9 with
        | nil => rfl
        | cons d ds =>
          rw [hrd] at hb
          have hdw : isWordChar d = false := by
            have hb2 : (! isWordChar d) = true := hb
            simpa using hb2
          have hres := subnUseTools_nomatch true d ds (fun hc => absurd hc.1 (by simp))
          have hres1 : (subnUseTools true (d :: ds)).1
              = d :: (subnUseTools (isWordChar d) ds).1 := by rw [hres]
          rw [hres1, hdw]
          have hnm : ¬ (pw₁ = false ∧
              matchesUseTools (d :: (subnUseTools false ds).1) = true) := by
            intro hc
            have := matchesUseTools_head _ _ hc.2
            rw [hdw] at this
            exact absurd this (by simp)
          have houter := subnUseTools_nomatch pw₁ d ((subnUseTools false ds).1) hnm
          rw [houter, hdw]
          have hdslen : ds.length ≤ n := by
            have hl := congrArg List.length hrd
            simp only [List.length_drop, List.length_cons] at hl ⊢
            simp only [List.length_cons] at hlen
            omega
          exact ih ds hdslen false false (fun h => h)
      · have hnmt := subnUseTools_nomatch pw₂ c rest hm
        have hnmt1 : (subnUseTools pw₂ (c :: rest)).1
            = c :: (subnUseTools (isWordChar c) rest).1 := by rw [hnmt]
        rw [hnmt1]
        by_cases hm2 : pw₁ = false ∧
            matchesUseTools (c :: (subnUseTools (isWordChar c) rest).1) = true
        · exfalso
          have hcrest := matches_res_implies c rest hm2.2
          have hpw2 : pw₂ = false := by
            cases hp2 : pw₂ with
            | false => rfl
            | true => rw [hcond hp2] at hm2; exact absurd hm2.1 (by simp)
          exact hm ⟨hpw2, hcrest⟩
        · have houter := subnUseTools_nomatch pw₁ c ((subnUseTools (isWordChar c) rest).1) hm2
          rw [houter]
          have hrlen : rest.length ≤ n := by
            simp only [List.length_cons] at hlen
            omega
          exact ih rest hrlen (isWordChar c) (isWordChar c) (fun h => h)

theorem rescan_zero (s : Str) : (subnUseTools false (subnUseTools false s).1).2 = 0 :=
  rescan_zero_go s.length s (le_refl _) false false (fun h => h)

theorem strip_marker_count (s : Str) :
    (subnUseTools false (strip_use_tools_marker s).1).2 = 0 := by
  unfold strip_use_tools_marker
  by_cases h : (subnUseTools false s).2 = 0
  · rw [if_pos h]
    exact h
  · rw [if_neg h]
    exact rescan_zero s

theorem strip_marker_snd_false (s : Str) (h : (strip_use_tools_marker s).2 = false) :
    (subnUseTools false s).2 = 0 := by
  by_cases h0 : (subnUseTools false s).2 = 0
  · exact h0
  · exfalso
    unfold strip_use_tools_marker at h
    rw [if_neg h0] at h
    exact absurd h (by simp)

theorem blockTextClean_of_snd_false (b : JVal) (h : (useToolsBlock b).2 = false) :
    blockTextClean b = true := by
  cases b with
  | obj bkvs =>
    simp only [useToolsBlock] at h
    simp only [blockTextClean]
    by_cases ht : dGet bkvs "type".data = some (.str "text".data)
    · rw [if_pos ht] at h ⊢
      exact decide_eq_true (strip_marker_snd_false _ h)
    · rw [if_neg ht]
  | null => rfl
  | bool v => rfl
  | num v => rfl
  | str v => rfl
  | arr v => rfl

theorem getStrCoerced_dSet_self (d : List (Str × JVal)) (k : Str) (t : Str) :
    getStrCoerced (dSet d k (.str t)) k = if t.isEmpty then [] else t := by
  unfold getStrCoerced
  have hget : dGet (dSet d k (.str t)) k = some (.str t) := by rw [dGet_dSet, if_pos rfl]
  rw [hget]
  show (if truthy (.str t) = true then pyStr (.str t) else []) = if t.isEmpty then [] else t
  by_cases he : t.isEmpty = true
  · rw [if_pos he, if_neg (by simp [truthy, he])]
  · rw [if_neg he, if_pos (by simp [truthy, he])]
    rfl

theorem blockTextClean_useToolsBlock (b : JVal) :
    blockTextClean (useToolsBlock b).1 = true := by
  cases b with
  | obj bkvs =>
    simp only [useToolsBlock]
    by_cases ht : dGet bkvs "type".data = some (.str "text".data)
    · rw [if_pos ht]
      dsimp only
      by_cases hs : (strip_use_tools_marker (getStrCoerced bkvs "text".data)).2 = true
      · rw [if_pos hs]
        simp only [blockTextClean]
        have hne : ("type".data : Str) ≠ "text".data := by decide
        rw [dGet_dSet, if_neg hne, if_pos ht, decide_eq_true_eq, getStrCoerced_dSet_self]
        by_cases he : ((strip_use_tools_marker (getStrCoerced bkvs "text".data)).1).isEmpty = true
        · rw [if_pos he]
          rfl
        · rw [if_neg he]
          exact strip_marker_count _
      · rw [if_neg hs]
        exact blockTextClean_of_snd_false (.obj bkvs)
          (by simp only [useToolsBlock]; rw [if_pos ht]; simpa using hs)
    · rw [if_neg ht]
      dsimp only
      simp only [blockTextClean]
      rw [if_neg ht]
  | null => rfl
  | bool v => rfl
  | num v => rfl
  | str v => rfl
  | arr v => rfl

theorem messageMarkerClean_useToolsMessage (m : JVal) :
    messageMarkerClean (useToolsMessage m).1 = true := by
  cases m with
  | obj kvs =>
    simp only [useToolsMessage]
    by_cases hr : dGet kvs "role".data = some (.str "user".data)
    · rw [if_pos hr]
      cases hc : dGet kvs "content".data with
      | none =>
        dsimp only
        simp only [messageMarkerClean]
        rw [if_pos hr, hc]
      | some v =>
        cases v with
        | str sc =>
          dsimp only
          by_cases hs : (strip_use_tools_marker sc).2 = true
          · rw [if_pos hs]
            simp only [messageMarkerClean]
            have hne : ("role".data : Str) ≠ "content".data := by decide
            rw [dGet_dSet, if_neg hne, if_pos hr, dGet_dSet, if_pos rfl]
            exact decide_eq_true (strip_marker_count sc)
          · rw [if_neg hs]
            simp only [messageMarkerClean]
            rw [if_pos hr, hc]
            exact decide_eq_true (strip_marker_snd_false sc (by simpa using hs))
        | arr blocks =>
          dsimp only
          by_cases hany : (blocks.map useToolsBlock).any (fun x => x.2) = true
          · rw [if_pos hany]
            simp only [messageMarkerClean]
            have hne : ("role".data : Str) ≠ "content".data := by decide
            rw [dGet_dSet, if_neg hne, if_pos hr, dGet_dSet, if_pos rfl]
            rw [List.all_eq_true]
            intro x hx
            rw [List.map_map, List.mem_map] at hx
            obtain ⟨b, hb, rfl⟩ := hx
            exact blockTextClean_useToolsBlock b
          · rw [if_neg hany]
            simp only [messageMarkerClean]
            rw [if_pos hr, hc, List.all_eq_true]
            intro b hb
            refine blockTextClean_of_snd_false b ?_
            cases hx : (useToolsBlock b).2 with
            | false => rfl
            | true =>
              exfalso
              apply hany
              rw [List.any_eq_true]
              exact ⟨useToolsBlock b, List.mem_map_of_mem _ hb, hx⟩
        | null =>
          dsimp only
          simp only [messageMarkerClean]
          rw [if_pos hr, hc]
        | bool v =>
          dsimp only
          simp only [messageMarkerClean]
          rw [if_pos hr, hc]
        | num v =>
          dsimp only
          simp only [messageMarkerClean]
          rw [if_pos hr, hc]
        | obj kvs2 =>
          dsimp only
          simp only [messageMarkerClean]
          rw [if_pos hr, hc]
    · rw [if_neg hr]
      simp only [messageMarkerClean]
      rw [if_neg hr]
  | null => rfl
  | bool v => rfl
  | num v => rfl
  | str v => rfl
  | arr v => rfl

theorem payloadMarkerClean_marker (p : List (Str × JVal)) :
    payloadMarkerClean (apply_use_tools_marker p).1 = true := by
  unfold apply_use_tools_marker
  cases hm : dGet p "messages".data with
  | none =>
    dsimp only
    simp only [payloadMarkerClean, hm]
  | some v =>
    cases v with
    | arr msgs =>
      dsimp only
      simp only [payloadMarkerClean]
      rw [dGet_dSet, if_pos rfl, List.all_eq_true]
      intro x hx
      rw [List.map_map, List.mem_map] at hx
      obtain ⟨mm, hmm, rfl⟩ := hx
      exact messageMarkerClean_useToolsMessage mm
    | null =>
      dsimp only
      simp only [payloadMarkerClean, hm]
    | bool b =>
      dsimp only
      simp only [payloadMarkerClean, hm]
    | num n =>
      dsimp only
      simp only [payloadMarkerClean, hm]
    | str t =>
      dsimp only
      simp only [payloadMarkerClean, hm]
    | obj kvs =>
      dsimp only
      simp only [payloadMarkerClean, hm]

theorem payloadMarkerClean_dSet (p : List (Str × JVal)) (k : Str) (v : JVal)
    (hk : ("messages".data : Str) ≠ k) :
    payloadMarkerClean (dSet p k v) = payloadMarkerClean p := by
  unfold payloadMarkerClean
  rw [dGet_dSet, if_neg hk]

theorem thinkingFilter_all (cap : Bool) (P : JVal → Bool) :
    ∀ l : List JVal, l.all P = true → ((thinkingFilter cap l).1).all P = true := by
  intro l
  induction l with
  | nil =>
    intro _
    rfl
  | cons b rest ih =>
    intro h
    rw [List.all_cons, Bool.and_eq_true] at h
    simp only [thinkingFilter]
    by_cases h1 : isThinkingBlock b = true
    · rw [if_pos h1]
      cases cap with
      | false =>
        rw [if_neg (by simp)]
        exact ih h.2
      | true =>
        rw [if_pos rfl]
        dsimp only
        rw [List.all_cons, Bool.and_eq_true]
        exact ⟨h.1, ih h.2⟩
    · rw [if_neg h1]
      by_cases h3 : isRedactedBlock b = true
      · rw [if_pos h3]
        cases cap with
        | false =>
          rw [if_neg (by simp)]
          exact ih h.2
        | true =>
          rw [if_pos rfl]
          dsimp only
          rw [List.all_cons, Bool.and_eq_true]
          exact ⟨h.1, ih h.2⟩
      · rw [if_neg h3]
        dsimp only
        rw [List.all_cons, Bool.and_eq_true]
        exact ⟨h.1, ih h.2⟩

theorem messageMarkerClean_thinkingMessage (cap : Bool) (m : JVal)
    (h : messageMarkerClean m = true) :
    messageMarkerClean (thinkingMessage cap m).1 = true := by
  cases m with
  | obj kvs =>
    simp only [thinkingMessage]
    cases hc : dGet kvs "content".data with
    | none => exact h
    | some v =>
      cases v with
      | arr content =>
        dsimp only
        simp only [messageMarkerClean]
        have hne : ("role".data : Str) ≠ "content".data := by decide
        rw [dGet_dSet, if_neg hne]
        by_cases hr : dGet kvs "role".data = some (.str "user".data)
        · rw [if_pos hr, dGet_dSet, if_pos rfl]
          have hall : content.all blockTextClean = true := by
            simp only [messageMarkerClean] at h
            rw [if_pos hr, hc] at h
            exact h
          exact thinkingFilter_all cap blockTextClean content hall
        · rw [if_neg hr]
      | null => exact h
      | bool b2 => exact h
      | num n2 => exact h
      | str s2 => exact h
      | obj o2 => exact h
  | null => exact h
  | bool v => exact h
  | num v => exact h
  | str v => exact h
  | arr v => exact h

theorem payloadMarkerClean_thinking (p : List (Str × JVal)) (cap : Bool)
    (h : payloadMarkerClean p = true) :
    payloadMarkerClean (apply_thinking_policy p cap).1 = true := by
  unfold apply_thinking_policy
  cases hm : dGet p "messages".data with
  | none => exact h
  | some v =>
    cases v with
    | arr msgs =>
      dsimp only
      simp only [payloadMarkerClean]
      rw [dGet_dSet, if_pos rfl, List.all_eq_true]
      intro x hx
      rw [List.map_map, List.mem_map] at hx
      obtain ⟨mm, hmm, rfl⟩ := hx
      have hall : msgs.all messageMarkerClean = true := by
        simp only [payloadMarkerClean, hm] at h
        exact h
      rw [List.all_eq_true] at hall
      exact messageMarkerClean_thinkingMessage cap mm (hall mm hmm)
    | null => exact h
    | bool b => exact h
    | num n => exact h
    | str t => exact h
    | obj kvs => exact h

theorem dGet_thinking_ne (p : List (Str × JVal)) (cap : Bool) (k : Str)
    (hk : k ≠ "messages".data) :
    dGet (apply_thinking_policy p cap).1 k = dGet p k := by
  unfold apply_thinking_policy
  cases hm : dGet p "messages".data with
  | none => rfl
  | some v =>
    cases v with
    | arr msgs =>
      dsimp only
      rw [dGet_dSet, if_neg hk]
    | null => rfl
    | bool b => rfl
    | num n => rfl
    | str t => rfl
    | obj kvs => rfl

theorem dGet_ensure_ne (p : List (Str × JVal)) (k : Str) (hk : k ≠ "system".data) :
    dGet (ensure_tool_use_system_instruction p) k = dGet p k := by
  unfold ensure_tool_use_system_instruction
  rw [dGet_dSet, if_neg hk]

theorem dGet_ensure_system (p : List (Str × JVal)) :
    ∃ blocks : List JVal,
      dGet (ensure_tool_use_system_instruction p) "system".data
        = some (.arr (blocks ++ [.obj [("type".data, .str "text".data),
            ("text".data, .str TOOL_USE_SYSTEM_INSTRUCTION)]])) := by
  refine ⟨?_, ?_⟩
  · exact
      match dGet p "system".data with
      | some (.str s) => [.obj [("type".data, .str "text".data), ("text".data, .str s)]]
      | some (.arr l) => l
      | some .null => []
      | none => []
      | some other => [.obj [("type".data, .str "text".data), ("text".data, .str (pyStr other))]]
  · unfold ensure_tool_use_system_instruction
    rw [dGet_dSet, if_pos rfl]

/-- C7, corrected: the original claim promises that the adapted payload
contains no `use_tools` substring in ANY message text, but the marker is
stripped only from `user`-role messages (adapt_request.py:185) and only at
word-bounded occurrences; an assistant-role text keeps the token.  The
counterexample feeds a request whose user text carries a word-bounded
`use_tools` and whose assistant text also contains it, with one declared
tool: the prepared payload still contains the substring. -/
theorem C7_counterexample :
    (subnUseTools false "please use_tools now".data).2 ≠ 0 ∧
    containsCI useToolsTarget "I will use_tools today".data = true ∧
    payloadHasUseTools (prepare_anthropic_payload
      [("model".data, .str "m".data),
       ("messages".data, .arr
         [.obj [("role".data, .str "user".data),
                ("content".data, .str "please use_tools now".data)],
          .obj [("role".data, .str "assistant".data),
                ("content".data, .str "I will use_tools today".data)]]),
       ("tools".data, .arr [.obj [("name".data, .str "read_file".data)]])]
      exRouting).1 = true := by
  refine ⟨by decide, by decide, by decide⟩

/-- C7 (amended): when `_apply_use_tools_marker` reports the marker was
found in a user message and the marked payload declares a truthy `tools`
value, the prepared payload has no word-bounded, case-insensitive
`use_tools` occurrence left in any user-role message text, its `system`
value is a block list whose last entry is the forced-tool-use
instruction, and `temperature` is set to `0` when the payload had no
temperature of its own. -/
theorem C7_use_tools_forcing (payload : List (Str × JVal)) (routing : RoutingConfig)
    (hmark : (apply_use_tools_marker (to_anthropic_compat payload
      (resolve_model (requestedModelOf payload) routing))).2 = true)
    (htools : truthy ((dGet (apply_use_tools_marker (to_anthropic_compat payload
      (resolve_model (requestedModelOf payload) routing))).1
        "tools".data).getD .null) = true) :
    payloadMarkerClean (prepare_anthropic_payload payload routing).1 = true ∧
    (∃ blocks : List JVal,
      dGet (prepare_anthropic_payload payload routing).1 "system".data
        = some (.arr blocks) ∧
      blocks.getLast? = some (.obj [("type".data, .str "text".data),
        ("text".data, .str TOOL_USE_SYSTEM_INSTRUCTION)])) ∧
    (dHasKey (ensure_tool_use_system_instruction (apply_use_tools_marker
        (to_anthropic_compat payload (resolve_model (requestedModelOf payload)
          routing))).1) "temperature".data = false →
      dGet (prepare_anthropic_payload payload routing).1 "temperature".data
        = some (.num 0)) := by
  have hprep : (prepare_anthropic_payload payload routing).1
      = (apply_thinking_policy
          (if dHasKey (ensure_tool_use_system_instruction (apply_use_tools_marker
              (to_anthropic_compat payload (resolve_model (requestedModelOf payload)
                routing))).1) "temperature".data
           then ensure_tool_use_system_instruction (apply_use_tools_marker
              (to_anthropic_compat payload (resolve_model (requestedModelOf payload)
                routing))).1
           else dSet (ensure_tool_use_system_instruction (apply_use_tools_marker
              (to_anthropic_compat payload (resolve_model (requestedModelOf payload)
                routing))).1) "temperature".data (.num 0))
          (decide (resolve_model (requestedModelOf payload) routing
            ∈ routing.thinking_capable_models))).1 := by
    simp only [prepare_anthropic_payload]
    rw [if_pos ⟨hmark, htools⟩]
  have hpe_clean : payloadMarkerClean (ensure_tool_use_system_instruction
      (apply_use_tools_marker (to_anthropic_compat payload
        (resolve_model (requestedModelOf payload) routing))).1) = true := by
    unfold ensure_tool_use_system_instruction
    rw [payloadMarkerClean_dSet _ _ _ (by decide)]
    exact payloadMarkerClean_marker _
  obtain ⟨blocks0, hsys⟩ := dGet_ensure_system (apply_use_tools_marker
    (to_anthropic_compat payload (resolve_model (requestedModelOf payload) routing))).1
  refine ⟨?_, ?_, ?_⟩
  · rw [hprep]
    apply payloadMarkerClean_thinking
    by_cases hT : dHasKey (ensure_tool_use_system_instruction (apply_use_tools_marker
        (to_anthropic_compat payload (resolve_model (requestedModelOf payload)
          routing))).1) "temperature".data = true
    · rw [if_pos hT]
      exact hpe_clean
    · rw [if_neg hT]
      rw [payloadMarkerClean_dSet _ _ _ (by decide)]
      exact hpe_clean
  · rw [hprep, dGet_thinking_ne _ _ _ (by decide)]
    by_cases hT : dHasKey (ensure_tool_use_system_instruction (apply_use_tools_marker
        (to_anthropic_compat payload (resolve_model (requestedModelOf payload)
          routing))).1) "temperature".data = true
    · rw [if_pos hT, hsys]
      exact ⟨_, rfl, List.getLast?_concat _⟩
    · rw [if_neg hT, dGet_dSet, if_neg (by decide), hsys]
      exact ⟨_, rfl, List.getLast?_concat _⟩
  · intro hT
    rw [hprep, dGet_thinking_ne _ _ _ (by decide)]
    rw [if_neg (by rw [hT]; exact Bool.false_ne_true)]
    rw [dGet_dSet, if_pos rfl]

theorem C7_use_tools_forcing_witness :
    payloadMarkerClean (prepare_anthropic_payload
      [("model".data, .str "m".data),
       ("messages".data, .arr
         [.obj [("role".data, .str "user".data),
                ("content".data, .str "please use_tools now".data)]]),
       ("tools".data, .arr [.obj [("name".data, .str "read_file".data)]])]
      exRouting).1 = true :=
  (C7_use_tools_forcing
    [("model".data, .str "m".data),
     ("messages".data, .arr
       [.obj [("role".data, .str "user".data),
              ("content".data, .str "please use_tools now".data)]]),
     ("tools".data, .arr [.obj [("name".data, .str "read_file".data)]])]
    exRouting (by decide) (by decide)).1
